import Mathlib

set_option maxRecDepth 8000

namespace FFR

/-!
Shallow embedding of `cmd/update-kyber-applications/main.go` (two Go CLI
programs: the values.yaml URL Rewriter and the Notion merkle-file Fetcher).
Go strings are modelled as `List Char`; Go maps as association lists; the
filesystem and network are modelled by explicit inputs and write-event logs.
-/

/-! ### Core string model (Go `strings` package operations) -/

/-- Go `strings.HasPrefix p s`-style test: the first list starts the second. -/
def isPre : List Char → List Char → Bool
  | [], _ => true
  | _ :: _, [] => false
  | a :: as, b :: bs => a == b && isPre as bs

/-- Go `strings.Contains s pat`: `pat` occurs as a contiguous substring of `s`. -/
def containsSub : List Char → List Char → Bool
  | [], pat => pat.isEmpty
  | c :: rest, pat => isPre pat (c :: rest) || containsSub rest pat

/-- Scanner implementing Go `strings.ReplaceAll` for a nonempty pattern: when
the pattern matches at the current position the replacement is emitted and the
next `pat.length - 1` original characters are skipped (first argument tracks
pending skips), giving leftmost non-overlapping replacement. -/
def raGo (pat rep : List Char) : Nat → List Char → List Char
  | _, [] => []
  | 0, c :: rest =>
    if isPre pat (c :: rest) then rep ++ raGo pat rep (pat.length - 1) rest
    else c :: raGo pat rep 0 rest
  | k + 1, _ :: rest => raGo pat rep k rest

/-- Go `strings.ReplaceAll s pat rep`.  For the empty pattern Go inserts the
replacement before every character and once at the end. -/
def replaceAll (s pat rep : List Char) : List Char :=
  match pat with
  | [] => rep ++ (s.map (fun c => c :: rep)).flatten
  | _ :: _ => raGo pat rep 0 s

/-- Number of positions of `s` at which `pat` occurs (overlapping occurrences
are all counted). -/
def occCount (s pat : List Char) : Nat :=
  ((List.range (s.length + 1)).filter (fun i => isPre pat (s.drop i))).length

/-! ### Segment ("glue") machinery.

A text is decomposed as alternating inert segments and token strings.  All
tokens begin with a marker character `x0` that occurs nowhere else; distinct
tokens are never prefixes of one another.  Under these conditions
`replaceAll` acts tokenwise and `containsSub` detects exactly the tokens. -/

/-- `glue [u0, u1, ..., uk] [t1, ..., tk] = u0 ++ t1 ++ u1 ++ ... ++ tk ++ uk`. -/
def glue : List (List Char) → List (List Char) → List Char
  | [], _ => []
  | u :: _, [] => u
  | u :: us, t :: ts => u ++ t ++ glue us ts

/-- A token: nonempty, begins with the marker `x0`, and contains `x0` nowhere
else. -/
def atomTok (x0 : Char) : List Char → Bool
  | [] => false
  | c :: rest => c == x0 && rest.all (fun d => d != x0)

/-- Tokens that are distinct and mutually non-prefix. -/
def tokCompat (s t : List Char) : Prop :=
  s = t ∨ (isPre s t = false ∧ isPre t s = false)

/-! ### URL Rewriter (Go `main`, first program)

Source: `cmd/update-kyber-applications/main.go`, the values.yaml rewriter. -/

/-- Source `type pair struct { ChainID, RewardType string }`. -/
structure pair where
  chainID : List Char
  rewardType : List Char
deriving DecidableEq, Repr

/-- Decimal rendering of a natural number, as Go `fmt.Sprintf("%d", n)` for
the nonnegative cycle numbers that occur here. -/
def natToChars (n : Nat) : List Char := (toString n).toList

/-- Source: `fmt.Sprintf("%s/cycle-%d/%s_%s_%d.json", rawPrefix, c, p.ChainID,
p.RewardType, c)`. -/
def urlFor (pfx : List Char) (c : Nat) (p : pair) : List Char :=
  pfx ++ "/cycle-".toList ++ natToChars c ++ "/".toList ++ p.chainID
    ++ "_".toList ++ p.rewardType ++ "_".toList ++ natToChars c ++ ".json".toList

/-- One iteration of the rewriter's replacement loop (source lines 77-90):
replace the previous-cycle URL by the new-cycle URL, then the old-cycle URL
by the previous-cycle URL, setting the changed flag when a replacement ran. -/
def applyPair (pfx : List Char) (newC : Nat) (st : List Char × Bool) (p : pair) :
    List Char × Bool :=
  let prevURL := urlFor pfx (newC - 1) p
  let newURL := urlFor pfx newC p
  let oldURL := urlFor pfx (newC - 2) p
  let st1 := if containsSub st.1 prevURL then (replaceAll st.1 prevURL newURL, true) else st
  if containsSub st1.1 oldURL then (replaceAll st1.1 oldURL prevURL, true) else st1

/-- The full text transform of the rewriter: fold the per-pair substitution
over the discovered pairs, starting from the original text with
`changed = false`. -/
def rewriteText (pfx : List Char) (newC : Nat) (ps : List pair)
    (text : List Char) : List Char × Bool :=
  ps.foldl (applyPair pfx newC) (text, false)

/-! #### Tokenwise behaviour of the replacement loop

The three URLs generated for each discovered pair, over all pairs. -/

def allURLs (pfx : List Char) (n : Nat) (ps : List pair) : List (List Char) :=
  (ps.map fun p => [urlFor pfx (n - 2) p, urlFor pfx (n - 1) p, urlFor pfx n p]).flatten

/-- All generated URLs are tokens for the marker `x0`. -/
def atomsOK (x0 : Char) (L : List (List Char)) : Bool := L.all (atomTok x0)

/-- No generated URL is a proper prefix of another. -/
def compatOK (L : List (List Char)) : Bool :=
  L.all fun s => L.all fun t => s == t || (!(isPre s t) && !(isPre t s))

/-- The map (cycle, pair) to generated URL is injective on the three cycles
and the discovered pairs. -/
def urlsInj (pfx : List Char) (n : Nat) (ps : List pair) : Bool :=
  [n - 2, n - 1, n].all fun c => [n - 2, n - 1, n].all fun c' =>
    ps.all fun p => ps.all fun q =>
      !(decide (urlFor pfx c p = urlFor pfx c' q)) || (decide (c = c') && decide (p = q))

/-- The URL a token `(p, b)` denotes before the rewriter runs: the
previous-cycle URL when `b`, the old-cycle URL otherwise. -/
def tokInit (pfx : List Char) (n : Nat) (tk : pair × Bool) : List Char :=
  if tk.2 then urlFor pfx (n - 1) tk.1 else urlFor pfx (n - 2) tk.1

/-- The URL the same token must denote after the rewriter has run: the
new-cycle URL when `b`, the previous-cycle URL otherwise. -/
def tokFinal (pfx : List Char) (n : Nat) (tk : pair × Bool) : List Char :=
  if tk.2 then urlFor pfx n tk.1 else urlFor pfx (n - 1) tk.1

/-- Token value midway through the loop: final for processed pairs, initial
for the rest. -/
def tokStr (pfx : List Char) (n : Nat) (done : List pair) (tk : pair × Bool) :
    List Char :=
  if tk.1 ∈ done then tokFinal pfx n tk else tokInit pfx n tk

/-- Splits off the longest prefix whose characters satisfy `p`. -/
def takeWhileSplit (p : Char → Bool) : List Char → List Char × List Char
  | [] => ([], [])
  | c :: rest =>
    if p c then (c :: (takeWhileSplit p rest).1, (takeWhileSplit p rest).2)
    else ([], c :: rest)

/-- `[A-Za-z]` of the source regex. -/
def isAlphaChar (c : Char) : Bool := c.isAlpha

/-- The anchored regex `^([0-9]+)_([A-Za-z]+)_([0-9]+)\.json$` of the source.
Because the digit and letter classes exclude the separators, the regex has a
unique deterministic parse, implemented here by maximal munch. -/
def matchMerkleName (name : List Char) : Option (List Char × List Char × List Char) :=
  match takeWhileSplit Char.isDigit name with
  | (d1, '_' :: r2) =>
    match takeWhileSplit isAlphaChar r2 with
    | (al, '_' :: r4) =>
      if d1 ≠ [] ∧ al ≠ [] ∧ (takeWhileSplit Char.isDigit r4).1 ≠ []
          ∧ (takeWhileSplit Char.isDigit r4).2 = ".json".toList then
        some (d1, al, (takeWhileSplit Char.isDigit r4).1)
      else none
    | _ => none
  | _ => none

/-- The decimal value of a digit string.  `strconv.Atoi` returns this value
when it fits a signed 64-bit int and a range error otherwise; the range
check is modelled at the call site in `processEntry`. -/
def natOfDigits (l : List Char) : Nat :=
  l.foldl (fun acc c => acc * 10 + (c.toNat - '0'.toNat)) 0

/-- Largest value `strconv.Atoi` accepts on a digit-only input (Go `int` is
64 bits on the platforms this tool targets). -/
def int64Max : Nat := 9223372036854775807

/-- Go `%q`: the name wrapped in double quotes (escaping not modelled). -/
def quoted (s : List Char) : List Char := '"' :: (s ++ ['"'])

/-- The message of `die(fmt.Errorf("invalid cycle in filename %q: %w", name,
err))` when `err` is the `strconv.Atoi` range error on digit group `d`. -/
def atoiRangeErr (name d : List Char) : List Char :=
  "invalid cycle in filename ".toList ++ quoted name
    ++ ": strconv.Atoi: parsing ".toList ++ quoted d
    ++ ": value out of range".toList

/-- One entry of `os.ReadDir`. -/
structure DirEntry where
  name : List Char
  isDir : Bool
deriving DecidableEq, Repr

/-- The accumulator of the scanning loop: `cycleNum` (0 = not yet seen) and
the set of discovered pairs (a Go map, modelled as a duplicate-free list). -/
structure ScanState where
  cycleNum : Nat
  pairs : List pair
deriving DecidableEq, Repr

/-- Go map insertion `pairs[p] = struct{}{}`. -/
def insertPair (ps : List pair) (p : pair) : List pair :=
  if p ∈ ps then ps else ps ++ [p]

/-- The body of the directory loop (source lines 35-56): `strconv.Atoi` on
the last digit group dies with the wrapped range error beyond int64, then
the cycle-number consistency check runs, then the pair is recorded. -/
def processEntry (dir : List Char) (st : ScanState) (e : DirEntry) :
    Except (List Char) ScanState :=
  if e.isDir then .ok st
  else match matchMerkleName e.name with
  | none => .ok st
  | some (chainID, rt, cy) =>
    let rewardType := rt.map Char.toUpper
    if int64Max < natOfDigits cy then .error (atoiRangeErr e.name cy)
    else
      let cn := natOfDigits cy
      if st.cycleNum = 0 then
        .ok ⟨cn, insertPair st.pairs ⟨chainID, rewardType⟩⟩
      else if st.cycleNum ≠ cn then
        .error ("multiple cycle numbers found in ".toList ++ dir)
      else .ok ⟨st.cycleNum, insertPair st.pairs ⟨chainID, rewardType⟩⟩

/-- The whole directory scan. -/
def scanDir (dir : List Char) (st : ScanState) : List DirEntry →
    Except (List Char) ScanState
  | [] => .ok st
  | e :: rest =>
    match processEntry dir st e with
    | .error m => .error m
    | .ok st' => scanDir dir st' rest

/-! #### The rewriter `main` (source lines 17-106) -/

/-- Command-line flags of the rewriter. `rawPfx` is the `--raw-prefix` flag. -/
structure RewriterFlags where
  valuesPath : List Char
  cycleDir : List Char
  rawPfx : List Char
deriving Repr

/-- Observable outcome of a run: exit 0 with an optional rewritten file and a
stdout line, or exit 1 via `die` with an error message. -/
inductive RunResult where
  | exit0 (written : Option (List Char)) (stdout : List Char)
  | exit1 (errMsg : List Char)
deriving DecidableEq, Repr

def exitCode : RunResult → Nat
  | .exit0 _ _ => 0
  | .exit1 _ => 1

/-- The file content written back to `--values`, if any. -/
def fileWritten : RunResult → Option (List Char)
  | .exit0 w _ => w
  | .exit1 _ => none

/-- Everything `die` prints on stderr: `fmt.Fprintln(os.Stderr, "ERROR:", err)`. -/
def stderrOut : RunResult → List Char
  | .exit0 _ _ => []
  | .exit1 m => "ERROR: ".toList ++ m ++ ['\n']

/-- The rewriter `main`.  `dirRead` models `os.ReadDir(cycleDir)` and
`fileRead` models `os.ReadFile(valuesPath)` (errors carry the message passed
to `die`). -/
def rewriterMain (fl : RewriterFlags) (dirRead : Except (List Char) (List DirEntry))
    (fileRead : Except (List Char) (List Char)) : RunResult :=
  if fl.valuesPath = [] ∨ fl.cycleDir = [] then
    .exit1 "missing --values or --cycle-dir".toList
  else match dirRead with
  | .error m => .exit1 m
  | .ok entries =>
    match scanDir fl.cycleDir ⟨0, []⟩ entries with
    | .error m => .exit1 m
    | .ok st =>
      if st.cycleNum = 0 ∨ st.pairs = [] then
        .exit1 ("no matching merkle files found in ".toList ++ fl.cycleDir)
      else if st.cycleNum < 2 then
        .exit1 ("cycle too small: ".toList ++ natToChars st.cycleNum)
      else match fileRead with
      | .error m => .exit1 m
      | .ok orig =>
        let r := rewriteText fl.rawPfx st.cycleNum st.pairs orig
        if r.2 = false then
          .exit0 none "No changes made to values.yaml (nothing matched).".toList
        else
          .exit0 (some r.1) "Updated values.yaml via URL string replacement only.".toList

/-! ### Filename matching and directory scan lemmas -/

/-- The next character (if any) fails `p`. -/
def headNot (p : Char → Bool) : List Char → Prop
  | [] => True
  | c :: _ => p c = false

deriving instance DecidableEq for Except

/-! ### Fetcher (Go `main`, second program)

Source: `cmd/update-kyber-applications/main.go`, the Notion merkle-file
fetcher.  Network and filesystem are modelled by explicit inputs (the
flattened pages of the cursor-paginated query, a download oracle) and by a
log of write events. -/

/-- Source `type Mapping struct { Chains, Types map[string]string }`;
the maps are modelled as association lists. -/
structure Mapping where
  chains : List (List Char × List Char)
  types : List (List Char × List Char)
deriving DecidableEq, Repr

/-- One element of a Notion rich-text array (plain_text field). -/
structure RichText where
  plainText : List Char
deriving DecidableEq, Repr

/-- The raw JSON of a title property, distinguished by the shapes that the
source's `titleText` tries to unmarshal: empty raw message, an object with
`title`/`results` arrays, a plain array, or anything else. -/
inductive TitleRaw where
  | empty : TitleRaw
  | obj (title results : List RichText) : TitleRaw
  | arr (items : List RichText) : TitleRaw
  | bad : TitleRaw
deriving DecidableEq, Repr

/-- A select / multi-select / status option (only the name is used). -/
structure SelOpt where
  name : List Char
deriving DecidableEq, Repr

/-- The `file` member of a Notion file entry (internal hosted URL). -/
structure FileRef where
  url : List Char
  expiryTime : List Char
deriving DecidableEq, Repr

/-- The `external` member of a Notion file entry. -/
structure ExtRef where
  url : List Char
deriving DecidableEq, Repr

/-- Source `type NotionFile struct`; `ext` is the source's `External`
member. -/
structure NotionFile where
  name : List Char
  ftype : List Char
  file : Option FileRef
  ext : Option ExtRef
deriving DecidableEq, Repr

/-- Source `type PropertyVal struct`; `ptype` is the source's `Type`. -/
structure PropertyVal where
  ptype : List Char
  title : TitleRaw
  select : Option SelOpt
  multiSelect : List SelOpt
  status : Option SelOpt
  files : List NotionFile
deriving DecidableEq, Repr

/-- Source `type Page struct { ID string; Properties map[string]PropertyVal }`. -/
structure Page where
  id : List Char
  properties : List (List Char × PropertyVal)
deriving DecidableEq, Repr

/-- Source `joinPlainText`: the nonempty plain texts joined with "". -/
def joinPlainText (items : List RichText) : List Char :=
  (((items.map (fun t => t.plainText)).filter (fun s => !s.isEmpty))).flatten

/-- Source `titleText`: empty raw gives ""; an object shape is used when one
of its arrays is nonempty; otherwise the array shape when nonempty;
otherwise "". -/
def titleText (p : PropertyVal) : List Char :=
  match p.title with
  | .empty => []
  | .obj t r => if t.length > 0 ∨ r.length > 0 then joinPlainText (t ++ r) else []
  | .arr a => if a.length > 0 then joinPlainText a else []
  | .bad => []

/-- The internal hosted URL of a file entry, or [] when absent. -/
def furl : Option FileRef → List Char
  | none => []
  | some fr => fr.url

/-- The external URL of a file entry, or [] when absent. -/
def xurl : Option ExtRef → List Char
  | none => []
  | some e => e.url

/-- Source `fileURL`: four conditions tried in order - internal URL when the
declared type is "file", external URL when the declared type is "external",
then internal, then external; error when none holds. -/
def fileURL (f : NotionFile) : Except (List Char) (List Char) :=
  if f.ftype = "file".toList ∧ furl f.file ≠ [] then .ok (furl f.file)
  else if f.ftype = "external".toList ∧ xurl f.ext ≠ [] then .ok (xurl f.ext)
  else if furl f.file ≠ [] then .ok (furl f.file)
  else if xurl f.ext ≠ [] then .ok (xurl f.ext)
  else .error ("file entry ".toList ++ quoted f.name
    ++ " has no downloadable URL".toList)

/-- Source `type downloadItem struct`. -/
structure downloadItem where
  chainID : List Char
  rewardType : List Char
  pageID : List Char
  sourceURL : List Char
deriving DecidableEq, Repr

/-- The accumulator of the fetcher's row loop: the `seen` key set, the
`seenChains` set and the accumulated download items. -/
structure FetchState where
  seen : List (List Char)
  seenChains : List (List Char)
  items : List downloadItem
deriving DecidableEq, Repr

/-- The fetcher's command-line flags. -/
structure FetchCfg where
  databaseID : List Char
  cycle : Nat
  outDir : List Char
  notionToken : List Char
  allowExisting : Bool
  propTitle : List Char
  propStatus : List Char
  propChain : List Char
  propType : List Char
  propFile : List Char
  statusDone : List Char
  statusType : List Char
deriving Repr

/-- Go map-set insertion (`seenChains[chainID] = struct{}{}`). -/
def insertStr (l : List (List Char)) (s : List Char) : List (List Char) :=
  if s ∈ l then l else s :: l

/-- `fmt.Errorf("page %s: ...", page.ID, ...)`. -/
def pgErr (pg : Page) (msg : List Char) : List Char :=
  "page ".toList ++ pg.id ++ ": ".toList ++ msg

/-- The `seen` key of a row: chainID ++ ":" ++ rewardType. -/
def rowKey (chainID rewardType : List Char) : List Char :=
  chainID ++ (':' :: rewardType)

/-- The body of the fetcher's row loop (source lines 397-454): validate the
title, chain, type and file properties against the mapping, resolve the
download URL, enforce per-(chain, type) uniqueness, and accumulate the
download item. -/
def processPage (cfg : FetchCfg) (m : Mapping) (cycleStr : List Char)
    (st : FetchState) (pg : Page) : Except (List Char) FetchState :=
  match List.lookup cfg.propTitle pg.properties with
  | none => .error (pgErr pg ("missing/invalid title property ".toList
      ++ quoted cfg.propTitle))
  | some tp =>
    if tp.ptype ≠ "title".toList then
      .error (pgErr pg ("missing/invalid title property ".toList
        ++ quoted cfg.propTitle))
    else if containsSub (titleText tp) cycleStr = false then .ok st
    else
      match List.lookup cfg.propChain pg.properties with
      | none => .error (pgErr pg ("missing chain select ".toList
          ++ quoted cfg.propChain))
      | some cp =>
        match cp.select with
        | none => .error (pgErr pg ("missing chain select ".toList
            ++ quoted cfg.propChain))
        | some so =>
          if so.name = [] then
            .error (pgErr pg ("missing chain select ".toList
              ++ quoted cfg.propChain))
          else
            match List.lookup so.name m.chains with
            | none => .error (pgErr pg ("chain ".toList ++ quoted so.name
                ++ " not found in mapping".toList))
            | some chainID =>
              match List.lookup cfg.propType pg.properties with
              | none => .error (pgErr pg ("missing type multi_select ".toList
                  ++ quoted cfg.propType))
              | some yp =>
                if yp.ptype ≠ "multi_select".toList then
                  .error (pgErr pg ("missing type multi_select ".toList
                    ++ quoted cfg.propType))
                else
                  match yp.multiSelect with
                  | [tn] =>
                    (match List.lookup tn.name m.types with
                     | none => .error (pgErr pg ("type ".toList
                         ++ quoted tn.name ++ " not found in mapping".toList))
                     | some rewardType =>
                       (match List.lookup cfg.propFile pg.properties with
                        | none => .error (pgErr pg
                            ("missing files property ".toList
                              ++ quoted cfg.propFile))
                        | some fp =>
                          if fp.ptype ≠ "files".toList then
                            .error (pgErr pg ("missing files property ".toList
                              ++ quoted cfg.propFile))
                          else
                            (match fp.files with
                             | [f] =>
                               (match fileURL f with
                                | .error e => .error (pgErr pg e)
                                | .ok url =>
                                  if rowKey chainID rewardType ∈ st.seen then
                                    .error (pgErr pg
                                      ("duplicate chain/type ".toList
                                        ++ rowKey chainID rewardType))
                                  else
                                    .ok ⟨rowKey chainID rewardType :: st.seen,
                                         insertStr st.seenChains chainID,
                                         st.items ++ [⟨chainID, rewardType,
                                           pg.id, url⟩]⟩)
                             | fs => .error (pgErr pg
                                 ("expected exactly 1 merkle file, got ".toList
                                   ++ natToChars fs.length)))))
                  | ts => .error (pgErr pg
                      ("expected exactly 1 Type, got ".toList
                        ++ natToChars ts.length))

/-- The row loop over the flattened query results. -/
def processPages (cfg : FetchCfg) (m : Mapping) (cycleStr : List Char) :
    FetchState → List Page → Except (List Char) FetchState
  | st, [] => .ok st
  | st, pg :: rest =>
    match processPage cfg m cycleStr st pg with
    | .error e => .error e
    | .ok st' => processPages cfg m cycleStr st' rest

/-- The completeness check over the mapping's chains table (source lines
465-469), in association-list order: the first chain id not seen, if any. -/
def firstMissing (chains : List (List Char × List Char))
    (seenChains : List (List Char)) : Option (List Char × List Char) :=
  match chains with
  | [] => none
  | (nm, id) :: rest =>
    if id ∈ seenChains then firstMissing rest seenChains else some (nm, id)

/-- Filesystem writes performed by the fetcher. -/
inductive WriteEvent where
  | mkdirAll (dir : List Char)
  | fileWrite (path content : List Char)
deriving DecidableEq, Repr

/-- The deterministic output filename `{chainID}_{REWARDTYPE}_{cycle}.json`. -/
def outFileName (item : downloadItem) (cycle : Nat) : List Char :=
  item.chainID ++ ('_' :: (item.rewardType
    ++ ('_' :: (natToChars cycle ++ ".json".toList))))

/-- The download loop (source lines 475-486): each item is fetched through
the oracle `dl` and written; a zero-length download is fatal after the file
is in place (Go renames the temp file before the size check). -/
def runDownloads (cycle : Nat) (targetDir : List Char)
    (dl : List Char → Except (List Char) (List Char)) :
    List downloadItem → List WriteEvent →
    Except (List Char) Unit × List WriteEvent
  | [], ws => (.ok (), ws)
  | item :: rest, ws =>
    match dl item.sourceURL with
    | .error e => (.error ("download ".toList ++ outFileName item cycle
        ++ ": ".toList ++ e), ws)
    | .ok content =>
      if content.length = 0 then
        (.error ("downloaded file is empty: ".toList
           ++ (targetDir ++ ('/' :: outFileName item cycle))),
         ws ++ [WriteEvent.fileWrite
           (targetDir ++ ('/' :: outFileName item cycle)) content])
      else
        runDownloads cycle targetDir dl rest
          (ws ++ [WriteEvent.fileWrite
            (targetDir ++ ('/' :: outFileName item cycle)) content])

/-- The cycle label `fmt.Sprintf("Cycle %d", cycle)`. -/
def cycleStrOf (cfg : FetchCfg) : List Char :=
  "Cycle ".toList ++ natToChars cfg.cycle

/-- `filepath.Join(outDir, fmt.Sprintf("cycle-%d", cycle))`. -/
def targetDirOf (cfg : FetchCfg) : List Char :=
  cfg.outDir ++ ('/' :: ("cycle-".toList ++ natToChars cfg.cycle))

/-- The missing-chain fatal message (source line 467). -/
def missingChainMsg (nm cid cycleStr : List Char) : List Char :=
  "no merkle files found for chain ".toList ++ quoted nm ++ " (id ".toList
    ++ cid ++ ") in ".toList ++ cycleStr

/-- The fetcher `main` as a function of its inputs: parsed flags, the result
of reading the mapping file, the data-source ids of the database, whether the
target directory pre-exists non-empty, the flattened query results and the
download oracle.  Returns the final outcome (`.ok` carries the stdout
summary) together with the log of filesystem writes. -/
def fetcherMain (cfg : FetchCfg) (mappingRead : Except (List Char) Mapping)
    (dataSources : List (List Char)) (dirNonempty : Bool)
    (pages : List Page) (dl : List Char → Except (List Char) (List Char)) :
    Except (List Char) (List Char) × List WriteEvent :=
  if cfg.databaseID = [] ∨ cfg.cycle = 0 then
    (.error "missing --database-id or --cycle".toList, [])
  else if cfg.notionToken = [] then
    (.error "missing Notion token (set NOTION_TOKEN or --notion-token)".toList, [])
  else if cfg.statusType ≠ "status".toList ∧ cfg.statusType ≠ "select".toList then
    (.error ("invalid --status-type ".toList ++ quoted cfg.statusType
      ++ " (must be status or select)".toList), [])
  else match mappingRead with
  | .error e => (.error e, [])
  | .ok m =>
    match dataSources with
    | [] => (.error "database has no data_sources".toList, [])
    | _ :: _ =>
      if dirNonempty ∧ cfg.allowExisting = false then
        (.error ("target folder ".toList ++ targetDirOf cfg
          ++ " already exists and is not empty (use --allow-existing)".toList),
         [])
      else
        match processPages cfg m (cycleStrOf cfg) ⟨[], [], []⟩ pages with
        | .error e => (.error e, [])
        | .ok st =>
          if st.items = [] then
            (.error ("no matching Notion rows found for ".toList
              ++ cycleStrOf cfg), [])
          else
            match firstMissing m.chains st.seenChains with
            | some pr =>
              (.error (missingChainMsg pr.1 pr.2 (cycleStrOf cfg)), [])
            | none =>
              match runDownloads cfg.cycle (targetDirOf cfg) dl st.items
                  [WriteEvent.mkdirAll (targetDirOf cfg)] with
              | (.error e, ws) => (.error e, ws)
              | (.ok _, ws) =>
                (.ok ("Downloaded ".toList ++ natToChars st.items.length
                  ++ " files into ".toList ++ targetDirOf cfg), ws)

/-- Exit code of the fetcher outcome (`fatal` exits 1). -/
def fetchExitCode : Except (List Char) (List Char) → Nat
  | .ok _ => 0
  | .error _ => 1

/-- What `fatal` prints on stderr:
`fmt.Fprintln(os.Stderr, "ERROR:", err.Error())`. -/
def fetchStderr : Except (List Char) (List Char) → List Char
  | .ok _ => []
  | .error m => "ERROR: ".toList ++ m ++ ['\n']

/-- The (chain, type) key of an accumulated download item. -/
def itemKey (it : downloadItem) : List Char :=
  rowKey it.chainID it.rewardType

/-- Loop invariant of the fetcher's row loop: the seen set lists exactly the
keys of the accumulated items, and those keys are duplicate-free. -/
def FetchInv (st : FetchState) : Prop :=
  (∀ k, k ∈ st.seen ↔ k ∈ st.items.map itemKey) ∧ (st.items.map itemKey).Nodup

/-- Modelled from the spec (refinement comparison for claim C9; the claim's
wording, not the source): resolve the URL "preferring an internal hosted URL,
falling back to an external URL (fatal if neither present)". -/
def fileURLSpec (f : NotionFile) : Except (List Char) (List Char) :=
  if furl f.file ≠ [] then .ok (furl f.file)
  else if xurl f.ext ≠ [] then .ok (xurl f.ext)
  else .error ("file entry ".toList ++ quoted f.name
    ++ " has no downloadable URL".toList)

/-! ### Concrete fixtures used by the fetcher witnesses -/

def sampleCfg : FetchCfg :=
  ⟨"db1".toList, 3, "out".toList, "tok".toList, false,
   "Task name".toList, "Status".toList, "Chain".toList, "Type".toList,
   "Merkle file".toList, "Done".toList, "status".toList⟩

def sampleMapping : Mapping :=
  ⟨[("Ethereum".toList, "1".toList)], [("Trading".toList, "TRADING".toList)]⟩

def twoChainMapping : Mapping :=
  ⟨[("Ethereum".toList, "1".toList), ("Base".toList, "8453".toList)],
   [("Trading".toList, "TRADING".toList)]⟩

def titleProp : PropertyVal :=
  ⟨"title".toList, TitleRaw.arr [⟨"Cycle 3 rewards".toList⟩], none, [], none, []⟩

def chainProp : PropertyVal :=
  ⟨"select".toList, TitleRaw.empty, some ⟨"Ethereum".toList⟩, [], none, []⟩

def typeProp : PropertyVal :=
  ⟨"multi_select".toList, TitleRaw.empty, none, [⟨"Trading".toList⟩], none, []⟩

def fileProp : PropertyVal :=
  ⟨"files".toList, TitleRaw.empty, none, [], none,
   [⟨"m.json".toList, "file".toList, some ⟨"https://x/m.json".toList, []⟩, none⟩]⟩

def samplePage : Page :=
  ⟨"p1".toList,
   [("Task name".toList, titleProp), ("Chain".toList, chainProp),
    ("Type".toList, typeProp), ("Merkle file".toList, fileProp)]⟩

/-- The fetch state after processing the sample page from a fresh state. -/
def sampleState : FetchState :=
  ⟨["1:TRADING".toList], ["1".toList],
   [⟨"1".toList, "TRADING".toList, "p1".toList, "https://x/m.json".toList⟩]⟩

theorem isPre_iff {p s : List Char} : isPre p s = true ↔ ∃ t, s = p ++ t := by
  induction p generalizing s with
  | nil => simp [isPre]
  | cons a as ih =>
    cases s with
    | nil => simp [isPre]
    | cons b bs =>
      simp only [isPre, Bool.and_eq_true, beq_iff_eq, ih, List.cons_append]
      constructor
      · rintro ⟨rfl, t, rfl⟩; exact ⟨t, rfl⟩
      · rintro ⟨t, ht⟩
        rcases List.cons.injEq .. ▸ ht with ⟨rfl, rfl⟩
        exact ⟨rfl, t, rfl⟩

theorem isPre_self_append (p t : List Char) : isPre p (p ++ t) = true :=
  isPre_iff.mpr ⟨t, rfl⟩

theorem isPre_head_ne {x0 c : Char} {p' s : List Char} (h : c ≠ x0) :
    isPre (x0 :: p') (c :: s) = false := by
  have hb : (x0 == c) = false := beq_eq_false_iff_ne.mpr (fun hh => h hh.symm)
  simp [isPre, hb]

/-- If neither of two lists is a prefix of the other, the first is not a
prefix of the second extended arbitrarily. -/
theorem isPre_append_false {p t : List Char} (v : List Char)
    (h1 : isPre p t = false) (h2 : isPre t p = false) :
    isPre p (t ++ v) = false := by
  induction p generalizing t with
  | nil => simp [isPre] at h1
  | cons a as ih =>
    cases t with
    | nil => simp [isPre] at h2
    | cons b bs =>
      simp only [isPre, Bool.and_eq_false_iff, beq_eq_false_iff_ne, ne_eq,
        List.cons_append] at h1 h2 ⊢
      by_cases hab : a = b
      · subst hab
        rcases h1 with h1 | h1
        · exact absurd rfl h1
        · rcases h2 with h2 | h2
          · exact absurd rfl h2
          · exact Or.inr (ih h1 h2)
      · exact Or.inl hab

theorem raGo_skip (pat rep : List Char) : ∀ (s : List Char) (k : Nat),
    raGo pat rep k s = raGo pat rep 0 (s.drop k) := by
  intro s
  induction s with
  | nil => intro k; cases k <;> simp [raGo]
  | cons c rest ih =>
    intro k
    cases k with
    | zero => simp
    | succ k => simpa [raGo] using ih k

theorem replaceAll_nil (pat rep : List Char) (hp : pat ≠ []) :
    replaceAll [] pat rep = [] := by
  cases pat with
  | nil => exact absurd rfl hp
  | cons a as => simp [replaceAll, raGo]

theorem replaceAll_cons_nomatch {pat : List Char} (rep : List Char) {c : Char}
    {s : List Char} (hp : pat ≠ []) (h : isPre pat (c :: s) = false) :
    replaceAll (c :: s) pat rep = c :: replaceAll s pat rep := by
  cases pat with
  | nil => exact absurd rfl hp
  | cons a as => simp [replaceAll, raGo, h]

theorem replaceAll_match (pat rep t : List Char) (hp : pat ≠ []) :
    replaceAll (pat ++ t) pat rep = rep ++ replaceAll t pat rep := by
  cases pat with
  | nil => exact absurd rfl hp
  | cons a as =>
    have hm : isPre (a :: as) (a :: (as ++ t)) = true := isPre_self_append _ _
    show raGo (a :: as) rep 0 (a :: as ++ t) = rep ++ raGo (a :: as) rep 0 t
    simp only [List.cons_append, raGo, List.append_eq, hm, if_true,
      List.length_cons, Nat.add_sub_cancel]
    rw [raGo_skip _ _ (as ++ t) as.length, List.drop_left]

theorem atomTok_shape {x0 : Char} {t : List Char} (h : atomTok x0 t = true) :
    ∃ t', t = x0 :: t' ∧ ∀ c ∈ t', c ≠ x0 := by
  cases t with
  | nil => simp [atomTok] at h
  | cons c rest =>
    simp only [atomTok, Bool.and_eq_true, beq_iff_eq, List.all_eq_true] at h
    exact ⟨rest, by rw [h.1], fun c hc => by simpa using h.2 c hc⟩

theorem replaceAll_skip {x0 : Char} {pat : List Char} (rep : List Char)
    (u v : List Char) (hp : atomTok x0 pat = true) (hu : ∀ c ∈ u, c ≠ x0) :
    replaceAll (u ++ v) pat rep = u ++ replaceAll v pat rep := by
  obtain ⟨p', rfl, -⟩ := atomTok_shape hp
  induction u with
  | nil => simp
  | cons c u' ih =>
    have hc : c ≠ x0 := hu c (by simp)
    rw [List.cons_append,
      replaceAll_cons_nomatch rep (by simp) (isPre_head_ne hc),
      ih (fun d hd => hu d (by simp [hd]))]
    simp

theorem containsSub_skip {x0 : Char} {pat : List Char}
    (u v : List Char) (hp : atomTok x0 pat = true) (hu : ∀ c ∈ u, c ≠ x0) :
    containsSub (u ++ v) pat = containsSub v pat := by
  obtain ⟨p', rfl, -⟩ := atomTok_shape hp
  induction u with
  | nil => simp
  | cons c u' ih =>
    have hc : c ≠ x0 := hu c (by simp)
    rw [List.cons_append]
    show (isPre (x0 :: p') (c :: (u' ++ v)) || containsSub (u' ++ v) (x0 :: p')) = _
    rw [isPre_head_ne hc, ih (fun d hd => hu d (by simp [hd]))]
    simp

theorem replaceAll_tok_ne {x0 : Char} {pat t : List Char} (rep v : List Char)
    (hp : atomTok x0 pat = true) (ht : atomTok x0 t = true)
    (hne : t ≠ pat) (hcomp : tokCompat pat t) :
    replaceAll (t ++ v) pat rep = t ++ replaceAll v pat rep := by
  rcases hcomp with h | ⟨h1, h2⟩
  · exact absurd h.symm hne
  obtain ⟨t', rfl, htl⟩ := atomTok_shape ht
  obtain ⟨p', hpe, -⟩ := atomTok_shape hp
  rw [List.cons_append,
    replaceAll_cons_nomatch rep (by rw [hpe]; simp)
      (by rw [← List.cons_append]; exact isPre_append_false v h1 h2)]
  rw [List.cons_append]
  congr 1
  exact replaceAll_skip rep t' v hp htl

theorem containsSub_tok_ne {x0 : Char} {pat t : List Char} (v : List Char)
    (hp : atomTok x0 pat = true) (ht : atomTok x0 t = true)
    (hne : t ≠ pat) (hcomp : tokCompat pat t) :
    containsSub (t ++ v) pat = containsSub v pat := by
  rcases hcomp with h | ⟨h1, h2⟩
  · exact absurd h.symm hne
  obtain ⟨t', rfl, htl⟩ := atomTok_shape ht
  rw [List.cons_append]
  show (isPre pat (x0 :: (t' ++ v)) || containsSub (t' ++ v) pat) = _
  rw [show x0 :: (t' ++ v) = (x0 :: t') ++ v from rfl,
    isPre_append_false v h1 h2, containsSub_skip t' v hp htl]
  simp

theorem containsSub_of_isPre {pat s : List Char} (h : isPre pat s = true) :
    containsSub s pat = true := by
  cases s with
  | nil =>
    cases pat with
    | nil => simp [containsSub]
    | cons a as => simp [isPre] at h
  | cons c rest =>
    show (isPre pat (c :: rest) || containsSub rest pat) = true
    simp [h]

/-- Under the marker discipline, `replaceAll` on a glued text rewrites exactly
the tokens equal to the pattern. -/
theorem replaceAll_glue {x0 : Char} {pat : List Char} (rep : List Char)
    (us ts : List (List Char))
    (hlen : us.length = ts.length + 1)
    (hp : atomTok x0 pat = true)
    (hts : ∀ t ∈ ts, atomTok x0 t = true ∧ tokCompat pat t)
    (hus : ∀ u ∈ us, ∀ c ∈ u, c ≠ x0) :
    replaceAll (glue us ts) pat rep
      = glue us (ts.map fun t => if t = pat then rep else t) := by
  have hpne : pat ≠ [] := by obtain ⟨p', rfl, -⟩ := atomTok_shape hp; simp
  induction ts generalizing us with
  | nil =>
    match us, hlen with
    | [u], _ =>
      show replaceAll u pat rep = u
      have h1 : replaceAll (u ++ []) pat rep = u ++ replaceAll [] pat rep :=
        replaceAll_skip rep u [] hp (hus u (by simp))
      rw [List.append_nil] at h1
      rw [h1, replaceAll_nil pat rep hpne, List.append_nil]
  | cons t ts' ih =>
    match us, hlen with
    | u :: us', hlen =>
      have hth := hts t (by simp)
      have hgl : glue (u :: us') (t :: ts') = u ++ (t ++ glue us' ts') := by
        show u ++ t ++ glue us' ts' = _
        rw [List.append_assoc]
      have hgr : glue (u :: us') ((t :: ts').map fun s => if s = pat then rep else s)
          = u ++ ((if t = pat then rep else t)
              ++ glue us' (ts'.map fun s => if s = pat then rep else s)) := by
        show u ++ (if t = pat then rep else t) ++ _ = _
        rw [List.append_assoc]
      rw [hgl, hgr, replaceAll_skip rep u _ hp (hus u (by simp))]
      congr 1
      by_cases het : t = pat
      · subst het
        rw [if_pos rfl, replaceAll_match t rep _ hpne]
        congr 1
        exact ih us' (by simpa using hlen) (fun t' h' => hts t' (by simp [h']))
          (fun u' h' => hus u' (by simp [h']))
      · rw [if_neg het, replaceAll_tok_ne rep _ hp hth.1 het hth.2]
        congr 1
        exact ih us' (by simpa using hlen) (fun t' h' => hts t' (by simp [h']))
          (fun u' h' => hus u' (by simp [h']))

/-- Under the marker discipline, `containsSub` on a glued text holds exactly
when the pattern is one of the tokens. -/
theorem containsSub_glue {x0 : Char} {pat : List Char}
    (us ts : List (List Char))
    (hlen : us.length = ts.length + 1)
    (hp : atomTok x0 pat = true)
    (hts : ∀ t ∈ ts, atomTok x0 t = true ∧ tokCompat pat t)
    (hus : ∀ u ∈ us, ∀ c ∈ u, c ≠ x0) :
    containsSub (glue us ts) pat = decide (pat ∈ ts) := by
  induction ts generalizing us with
  | nil =>
    match us, hlen with
    | [u], _ =>
      show containsSub u pat = _
      have h1 : containsSub (u ++ []) pat = containsSub [] pat :=
        containsSub_skip u [] hp (hus u (by simp))
      rw [List.append_nil] at h1
      rw [h1]
      obtain ⟨p', rfl, -⟩ := atomTok_shape hp
      simp [containsSub]
  | cons t ts' ih =>
    match us, hlen with
    | u :: us', hlen =>
      have hth := hts t (by simp)
      have hgl : glue (u :: us') (t :: ts') = u ++ (t ++ glue us' ts') := by
        show u ++ t ++ glue us' ts' = _
        rw [List.append_assoc]
      rw [hgl, containsSub_skip u _ hp (hus u (by simp))]
      by_cases het : t = pat
      · subst het
        rw [containsSub_of_isPre (isPre_self_append t _)]
        simp
      · rw [containsSub_tok_ne _ hp hth.1 het hth.2,
          ih us' (by simpa using hlen) (fun t' h' => hts t' (by simp [h']))
            (fun u' h' => hus u' (by simp [h']))]
        exact decide_eq_decide.mpr
          ⟨fun h => List.mem_cons_of_mem t h,
           fun h => (List.mem_cons.mp h).resolve_left fun hh => het hh.symm⟩

theorem atomsOK_mem {x0 : Char} {L : List (List Char)} {s : List Char}
    (h : atomsOK x0 L = true) (hs : s ∈ L) : atomTok x0 s = true := by
  exact List.all_eq_true.mp h s hs

theorem compatOK_mem {L : List (List Char)} {s t : List Char}
    (h : compatOK L = true) (hs : s ∈ L) (ht : t ∈ L) : tokCompat s t := by
  have h0 := List.all_eq_true.mp (List.all_eq_true.mp h s hs) t ht
  by_cases he : s = t
  · exact Or.inl he
  · have hb : (s == t) = false := beq_eq_false_iff_ne.mpr he
    simp only [hb, Bool.false_or, Bool.and_eq_true, Bool.not_eq_true'] at h0
    exact Or.inr h0

theorem urlFor_inj {pfx : List Char} {n : Nat} {ps : List pair}
    (h : urlsInj pfx n ps = true) {c c' : Nat} {p q : pair}
    (hc : c ∈ [n - 2, n - 1, n]) (hc' : c' ∈ [n - 2, n - 1, n])
    (hp : p ∈ ps) (hq : q ∈ ps)
    (he : urlFor pfx c p = urlFor pfx c' q) : c = c' ∧ p = q := by
  have h1 := List.all_eq_true.mp (List.all_eq_true.mp (List.all_eq_true.mp
    (List.all_eq_true.mp h c hc) c' hc') p hp) q hq
  simp [he] at h1
  exact h1

theorem urlFor_mem_allURLs {pfx : List Char} {n : Nat} {ps : List pair}
    {p : pair} (hp : p ∈ ps) {c : Nat} (hc : c = n - 2 ∨ c = n - 1 ∨ c = n) :
    urlFor pfx c p ∈ allURLs pfx n ps := by
  simp only [allURLs, List.mem_flatten, List.mem_map]
  refine ⟨[urlFor pfx (n - 2) p, urlFor pfx (n - 1) p, urlFor pfx n p],
    ⟨p, hp, rfl⟩, ?_⟩
  rcases hc with rfl | rfl | rfl <;> simp

theorem tokStr_mem {pfx : List Char} {n : Nat} {ps : List pair}
    (done : List pair) {tk : pair × Bool} (htk : tk.1 ∈ ps) :
    tokStr pfx n done tk ∈ allURLs pfx n ps := by
  cases hb : tk.2 <;> by_cases h1 : tk.1 ∈ done <;>
    simp only [tokStr, tokFinal, tokInit, hb, h1, if_true, if_false,
      Bool.false_eq_true, ite_true, ite_false] <;>
    first
      | exact urlFor_mem_allURLs htk (Or.inl rfl)
      | exact urlFor_mem_allURLs htk (Or.inr (Or.inl rfl))
      | exact urlFor_mem_allURLs htk (Or.inr (Or.inr rfl))

theorem map_id_of_eq {α : Type} {f : α → α} {l : List α}
    (h : ∀ a ∈ l, f a = a) : l.map f = l := by
  induction l with
  | nil => rfl
  | cons a l ih => simp [h a (by simp), ih (fun b hb => h b (by simp [hb]))]

/-- Applying the two substitutions of one loop iteration (pair `r`) to a
token's current URL yields the token's URL with `r` marked processed. -/
theorem tokSubst_eq {pfx : List Char} {n : Nat} {ps : List pair}
    (hn : 2 ≤ n) (hinj : urlsInj pfx n ps = true)
    (done : List pair) {r : pair} (hr : r ∈ ps) (hrd : r ∉ done)
    {tk : pair × Bool} (htk : tk.1 ∈ ps) :
    (fun s => if s = urlFor pfx (n - 2) r then urlFor pfx (n - 1) r else s)
      ((fun s => if s = urlFor pfx (n - 1) r then urlFor pfx n r else s)
        (tokStr pfx n done tk))
    = tokStr pfx n (done ++ [r]) tk := by
  have hne : ∀ (c c' : Nat), (c = n - 2 ∨ c = n - 1 ∨ c = n) →
      (c' = n - 2 ∨ c' = n - 1 ∨ c' = n) →
      ∀ q, q ∈ ps → (c ≠ c' ∨ q ≠ r) → urlFor pfx c q ≠ urlFor pfx c' r := by
    intro c c' hc hc' q hq hor he
    have h := urlFor_inj hinj (by simpa using hc) (by simpa using hc') hq hr he
    rcases hor with h' | h'
    · exact h' h.1
    · exact h' h.2
  have hNO : urlFor pfx n r ≠ urlFor pfx (n - 2) r :=
    hne _ _ (Or.inr (Or.inr rfl)) (Or.inl rfl) r hr (Or.inl (by omega))
  have hstep : ∀ x : List Char,
      (fun s => if s = urlFor pfx (n - 2) r then urlFor pfx (n - 1) r else s)
        ((fun s => if s = urlFor pfx (n - 1) r then urlFor pfx n r else s) x)
      = if x = urlFor pfx (n - 1) r then urlFor pfx n r
        else if x = urlFor pfx (n - 2) r then urlFor pfx (n - 1) r else x := by
    intro x
    by_cases h1 : x = urlFor pfx (n - 1) r
    · simp [h1, hNO]
    · simp [h1]
  rw [hstep]
  obtain ⟨q, b⟩ := tk
  simp only at htk
  by_cases hd : q ∈ done
  · have hqr : q ≠ r := fun h => hrd (h ▸ hd)
    have hd' : q ∈ done ++ [r] := List.mem_append_left _ hd
    cases b
    · have hF : tokStr pfx n done (q, false) = urlFor pfx (n - 1) q := by
        simp [tokStr, tokFinal, hd]
      rw [hF,
        if_neg (hne _ _ (Or.inr (Or.inl rfl)) (Or.inr (Or.inl rfl)) _ htk
          (Or.inr hqr)),
        if_neg (hne _ _ (Or.inr (Or.inl rfl)) (Or.inl rfl) _ htk
          (Or.inl (by omega)))]
      simp [tokStr, tokFinal, hd']
    · have hF : tokStr pfx n done (q, true) = urlFor pfx n q := by
        simp [tokStr, tokFinal, hd]
      rw [hF,
        if_neg (hne _ _ (Or.inr (Or.inr rfl)) (Or.inr (Or.inl rfl)) _ htk
          (Or.inl (by omega))),
        if_neg (hne _ _ (Or.inr (Or.inr rfl)) (Or.inl rfl) _ htk
          (Or.inl (by omega)))]
      simp [tokStr, tokFinal, hd']
  · by_cases hqr : q = r
    · subst hqr
      have hd' : q ∈ done ++ [q] := by simp
      cases b
      · have hF : tokStr pfx n done (q, false) = urlFor pfx (n - 2) q := by
          simp [tokStr, tokInit, hd]
        rw [hF,
          if_neg (hne _ _ (Or.inl rfl) (Or.inr (Or.inl rfl)) _ htk
            (Or.inl (by omega))),
          if_pos rfl]
        simp [tokStr, tokFinal, hd']
      · have hF : tokStr pfx n done (q, true) = urlFor pfx (n - 1) q := by
          simp [tokStr, tokInit, hd]
        rw [hF, if_pos rfl]
        simp [tokStr, tokFinal, hd']
    · have hd' : q ∉ done ++ [r] := by
        simp only [List.mem_append, List.mem_singleton]
        rintro (h | h)
        · exact hd h
        · exact hqr h
      cases b
      · have hF : tokStr pfx n done (q, false) = urlFor pfx (n - 2) q := by
          simp [tokStr, tokInit, hd]
        rw [hF,
          if_neg (hne _ _ (Or.inl rfl) (Or.inr (Or.inl rfl)) _ htk
            (Or.inl (by omega))),
          if_neg (hne _ _ (Or.inl rfl) (Or.inl rfl) _ htk (Or.inr hqr))]
        simp [tokStr, tokInit, hd']
      · have hF : tokStr pfx n done (q, true) = urlFor pfx (n - 1) q := by
          simp [tokStr, tokInit, hd]
        rw [hF,
          if_neg (hne _ _ (Or.inr (Or.inl rfl)) (Or.inr (Or.inl rfl)) _ htk
            (Or.inr hqr)),
          if_neg (hne _ _ (Or.inr (Or.inl rfl)) (Or.inl rfl) _ htk
            (Or.inl (by omega)))]
        simp [tokStr, tokInit, hd']

/-- One loop iteration on a glued text rewrites exactly the tokens of the
processed pair. -/
theorem applyPair_glue_step {pfx : List Char} {n : Nat} {x0 : Char}
    {ps : List pair}
    (hn : 2 ≤ n)
    (hatoms : atomsOK x0 (allURLs pfx n ps) = true)
    (hcompat : compatOK (allURLs pfx n ps) = true)
    (hinj : urlsInj pfx n ps = true)
    (us : List (List Char)) (toks : List (pair × Bool))
    (hlen : us.length = toks.length + 1)
    (htoks : ∀ tk ∈ toks, tk.1 ∈ ps)
    (hus : ∀ u ∈ us, ∀ c ∈ u, c ≠ x0)
    (done : List pair) {r : pair} (hr : r ∈ ps) (hrd : r ∉ done) (fl : Bool) :
    (applyPair pfx n (glue us (toks.map (tokStr pfx n done)), fl) r).1
      = glue us (toks.map (tokStr pfx n (done ++ [r]))) := by
  set prevU := urlFor pfx (n - 1) r with hprevU
  set newU := urlFor pfx n r with hnewU
  set oldU := urlFor pfx (n - 2) r with holdU
  have hprevA : prevU ∈ allURLs pfx n ps :=
    urlFor_mem_allURLs hr (Or.inr (Or.inl rfl))
  have hnewA : newU ∈ allURLs pfx n ps :=
    urlFor_mem_allURLs hr (Or.inr (Or.inr rfl))
  have holdA : oldU ∈ allURLs pfx n ps :=
    urlFor_mem_allURLs hr (Or.inl rfl)
  set LT := toks.map (tokStr pfx n done) with hLT
  have hLTmem : ∀ t ∈ LT, t ∈ allURLs pfx n ps := by
    intro t ht
    rcases List.mem_map.mp ht with ⟨tk, htk, rfl⟩
    exact tokStr_mem done (htoks tk htk)
  have hlen' : us.length = LT.length + 1 := by simpa [hLT] using hlen
  have hts1 : ∀ t ∈ LT, atomTok x0 t = true ∧ tokCompat prevU t :=
    fun t ht => ⟨atomsOK_mem hatoms (hLTmem t ht),
      compatOK_mem hcompat hprevA (hLTmem t ht)⟩
  have hpatom : atomTok x0 prevU = true := atomsOK_mem hatoms hprevA
  set sub1 : List Char → List Char := fun s => if s = prevU then newU else s
    with hsub1
  set LT1 := LT.map sub1 with hLT1
  have hT1 : replaceAll (glue us LT) prevU newU = glue us LT1 :=
    replaceAll_glue newU us LT hlen' hpatom hts1 hus
  have hC1 : containsSub (glue us LT) prevU = decide (prevU ∈ LT) :=
    containsSub_glue us LT hlen' hpatom hts1 hus
  have hLT1mem : ∀ t ∈ LT1, t ∈ allURLs pfx n ps := by
    intro t ht
    rcases List.mem_map.mp ht with ⟨s, hs, rfl⟩
    by_cases he : s = prevU
    · simpa [hsub1, he] using hnewA
    · simpa [hsub1, he] using hLTmem s hs
  have hlen1 : us.length = LT1.length + 1 := by simpa [hLT1] using hlen'
  have hts2 : ∀ t ∈ LT1, atomTok x0 t = true ∧ tokCompat oldU t :=
    fun t ht => ⟨atomsOK_mem hatoms (hLT1mem t ht),
      compatOK_mem hcompat holdA (hLT1mem t ht)⟩
  have hoatom : atomTok x0 oldU = true := atomsOK_mem hatoms holdA
  set sub2 : List Char → List Char := fun s => if s = oldU then prevU else s
    with hsub2
  have hT2 : replaceAll (glue us LT1) oldU prevU = glue us (LT1.map sub2) :=
    replaceAll_glue prevU us LT1 hlen1 hoatom hts2 hus
  have hC2 : containsSub (glue us LT1) oldU = decide (oldU ∈ LT1) :=
    containsSub_glue us LT1 hlen1 hoatom hts2 hus
  have hfinal : glue us (LT1.map sub2)
      = glue us (toks.map (tokStr pfx n (done ++ [r]))) := by
    congr 1
    rw [hLT1, hLT, List.map_map, List.map_map]
    refine List.map_congr_left (fun tk htk => ?_)
    exact tokSubst_eq hn hinj done hr hrd (htoks tk htk)
  have hst1 :
      (if containsSub (glue us LT) prevU
        then (replaceAll (glue us LT) prevU newU, true)
        else (glue us LT, fl)).1 = glue us LT1 := by
    by_cases hm : prevU ∈ LT
    · rw [if_pos (by rw [hC1]; exact decide_eq_true hm)]
      exact hT1
    · rw [if_neg (by rw [hC1]; simp [hm])]
      show glue us LT = glue us LT1
      rw [hLT1, map_id_of_eq (fun s hs => if_neg (fun he : s = prevU => hm (he ▸ hs)))]
  show (applyPair pfx n (glue us LT, fl) r).1 = _
  unfold applyPair
  simp only [← hprevU, ← hnewU, ← holdU]
  by_cases hm2 : oldU ∈ LT1
  · rw [if_pos (by rw [hst1, hC2]; exact decide_eq_true hm2)]
    show replaceAll _ oldU prevU = _
    rw [hst1, hT2, hfinal]
  · rw [if_neg (by rw [hst1, hC2]; simp [hm2])]
    show (if containsSub (glue us LT) prevU
        then (replaceAll (glue us LT) prevU newU, true)
        else (glue us LT, fl)).1 = _
    rw [hst1, ← hfinal]
    congr 1
    rw [map_id_of_eq (fun s hs => if_neg (fun he : s = oldU => hm2 (he ▸ hs)))]

/-- The whole replacement loop on a glued text: every token of a pair in the
remaining list is rewritten from its current to its final URL. -/
theorem foldl_applyPair_glue {pfx : List Char} {n : Nat} {x0 : Char}
    {ps : List pair}
    (hn : 2 ≤ n)
    (hatoms : atomsOK x0 (allURLs pfx n ps) = true)
    (hcompat : compatOK (allURLs pfx n ps) = true)
    (hinj : urlsInj pfx n ps = true)
    (us : List (List Char)) (toks : List (pair × Bool))
    (hlen : us.length = toks.length + 1)
    (htoks : ∀ tk ∈ toks, tk.1 ∈ ps)
    (hus : ∀ u ∈ us, ∀ c ∈ u, c ≠ x0) :
    ∀ (rest done : List pair) (fl : Bool),
    (∀ p ∈ rest, p ∈ ps) → (∀ p ∈ rest, p ∉ done) → rest.Nodup →
    (rest.foldl (applyPair pfx n) (glue us (toks.map (tokStr pfx n done)), fl)).1
      = glue us (toks.map (tokStr pfx n (done ++ rest))) := by
  intro rest
  induction rest with
  | nil => intro done fl _ _ _; simp
  | cons r rest' ih =>
    intro done fl hrest hrd hnd
    have hr : r ∈ ps := hrest r (by simp)
    have hrdone : r ∉ done := hrd r (by simp)
    have hstep := applyPair_glue_step hn hatoms hcompat hinj us toks hlen
      htoks hus done hr hrdone fl
    have hpair : applyPair pfx n (glue us (toks.map (tokStr pfx n done)), fl) r
        = (glue us (toks.map (tokStr pfx n (done ++ [r]))),
           (applyPair pfx n (glue us (toks.map (tokStr pfx n done)), fl) r).2) :=
      Prod.ext hstep rfl
    show (rest'.foldl (applyPair pfx n)
        (applyPair pfx n (glue us (toks.map (tokStr pfx n done)), fl) r)).1 = _
    rw [hpair]
    have hnd' : rest'.Nodup := (List.nodup_cons.mp hnd).2
    have hrn : r ∉ rest' := (List.nodup_cons.mp hnd).1
    rw [ih (done ++ [r]) _ (fun p hp => hrest p (by simp [hp]))
        (fun p hp => by
          simp only [List.mem_append, List.mem_singleton]
          rintro (h | h)
          · exact hrd p (by simp [hp]) h
          · exact hrn (h ▸ hp))
        hnd']
    rw [List.append_assoc]
    rfl

/-- Flag and text behaviour of a single loop iteration: the changed flag
stays false exactly when neither URL of the pair occurs, and then the text is
untouched. -/
theorem applyPair_flag (pfx : List Char) (n : Nat) (st : List Char × Bool)
    (p : pair) :
    ((applyPair pfx n st p).2 = false ↔
      st.2 = false ∧ containsSub st.1 (urlFor pfx (n - 1) p) = false
        ∧ containsSub st.1 (urlFor pfx (n - 2) p) = false)
    ∧ ((applyPair pfx n st p).2 = false → applyPair pfx n st p = st) := by
  by_cases c1 : containsSub st.1 (urlFor pfx (n - 1) p) = true
  · have hr : (applyPair pfx n st p).2 = true := by
      simp only [applyPair, c1, if_true]
      by_cases c2 : containsSub
          (replaceAll st.1 (urlFor pfx (n - 1) p) (urlFor pfx n p))
          (urlFor pfx (n - 2) p) = true
      · simp [c2]
      · simp [c2]
    constructor
    · rw [hr]; simp [c1]
    · intro h; rw [hr] at h; exact absurd h (by simp)
  · have hc1 : containsSub st.1 (urlFor pfx (n - 1) p) = false :=
      eq_false_of_ne_true c1
    by_cases c2 : containsSub st.1 (urlFor pfx (n - 2) p) = true
    · have hr : applyPair pfx n st p =
          (replaceAll st.1 (urlFor pfx (n - 2) p) (urlFor pfx (n - 1) p), true) := by
        simp only [applyPair]
        simp [hc1, c2]
      constructor
      · rw [hr]; simp [c2]
      · intro h; rw [hr] at h; simp at h
    · have hc2 : containsSub st.1 (urlFor pfx (n - 2) p) = false :=
        eq_false_of_ne_true c2
      have hr : applyPair pfx n st p = st := by
        simp only [applyPair]
        simp [hc1, hc2]
      constructor
      · rw [hr]; simp [hc1, hc2]
      · intro _; exact hr

/-- Flag and text behaviour of the whole loop over any start state. -/
theorem foldl_applyPair_flag (pfx : List Char) (n : Nat) :
    ∀ (ps : List pair) (st : List Char × Bool),
    ((ps.foldl (applyPair pfx n) st).2 = false ↔
      st.2 = false ∧ ∀ p ∈ ps,
        containsSub st.1 (urlFor pfx (n - 1) p) = false ∧
        containsSub st.1 (urlFor pfx (n - 2) p) = false)
    ∧ ((ps.foldl (applyPair pfx n) st).2 = false →
        (ps.foldl (applyPair pfx n) st).1 = st.1) := by
  intro ps
  induction ps with
  | nil => intro st; simp
  | cons p ps' ih =>
    intro st
    have hA := applyPair_flag pfx n st p
    constructor
    · constructor
      · intro h
        have h2 := (ih (applyPair pfx n st p)).1.mp h
        have hap : applyPair pfx n st p = st := hA.2 h2.1
        have h3 := hA.1.mp h2.1
        refine ⟨h3.1, fun q hq => ?_⟩
        rcases List.mem_cons.mp hq with rfl | hq'
        · exact ⟨h3.2.1, h3.2.2⟩
        · have := h2.2 q hq'
          rwa [hap] at this
      · rintro ⟨hf, hall⟩
        have hap2 : (applyPair pfx n st p).2 = false :=
          hA.1.mpr ⟨hf, (hall p (by simp)).1, (hall p (by simp)).2⟩
        have hap : applyPair pfx n st p = st := hA.2 hap2
        show (ps'.foldl (applyPair pfx n) (applyPair pfx n st p)).2 = false
        rw [hap]
        exact (ih st).1.mpr ⟨hf, fun q hq => hall q (by simp [hq])⟩
    · intro h
      have h' : (ps'.foldl (applyPair pfx n) (applyPair pfx n st p)).2 = false := h
      have h2 := (ih (applyPair pfx n st p)).1.mp h'
      have hap : applyPair pfx n st p = st := hA.2 h2.1
      show (ps'.foldl (applyPair pfx n) (applyPair pfx n st p)).1 = st.1
      rw [hap] at h' ⊢
      exact (ih st).2 h'

/-- The changed flag of a run is false exactly when no generated URL occurs
in the input text. -/
theorem rewriteText_nochange_iff (pfx : List Char) (n : Nat) (ps : List pair)
    (t : List Char) :
    (rewriteText pfx n ps t).2 = false ↔
      ∀ p ∈ ps, containsSub t (urlFor pfx (n - 1) p) = false ∧
                containsSub t (urlFor pfx (n - 2) p) = false := by
  have h := (foldl_applyPair_flag pfx n ps (t, false)).1
  simpa [rewriteText] using h

/-- When the changed flag is false, the text is returned unmodified. -/
theorem rewriteText_nochange_text {pfx : List Char} {n : Nat} {ps : List pair}
    {t : List Char} (h : (rewriteText pfx n ps t).2 = false) :
    (rewriteText pfx n ps t).1 = t :=
  (foldl_applyPair_flag pfx n ps (t, false)).2 h

theorem tws_recon (p : Char → Bool) (l : List Char) :
    (takeWhileSplit p l).1 ++ (takeWhileSplit p l).2 = l := by
  induction l with
  | nil => rfl
  | cons c rest ih =>
    by_cases h : p c = true
    · simp [takeWhileSplit, h, ih]
    · simp [takeWhileSplit, h]

theorem tws_all (p : Char → Bool) (l : List Char) :
    ∀ c ∈ (takeWhileSplit p l).1, p c = true := by
  induction l with
  | nil => intro c hc; simp [takeWhileSplit] at hc
  | cons c rest ih =>
    intro d hd
    by_cases h : p c = true
    · simp only [takeWhileSplit, h, if_true] at hd
      rcases List.mem_cons.mp hd with rfl | hd'
      · exact h
      · exact ih d hd'
    · simp [takeWhileSplit, h] at hd

theorem tws_head (p : Char → Bool) (l : List Char) :
    headNot p (takeWhileSplit p l).2 := by
  induction l with
  | nil => trivial
  | cons c rest ih =>
    by_cases h : p c = true
    · simpa [takeWhileSplit, h] using ih
    · have h2 : (takeWhileSplit p (c :: rest)).2 = c :: rest := by
        simp [takeWhileSplit, h]
      rw [h2]
      exact eq_false_of_ne_true h

theorem tws_append (p : Char → Bool) {xs ys : List Char}
    (hx : ∀ c ∈ xs, p c = true) (hy : headNot p ys) :
    takeWhileSplit p (xs ++ ys) = (xs, ys) := by
  induction xs with
  | nil =>
    cases ys with
    | nil => rfl
    | cons y ys' =>
      have hy' : p y = false := hy
      simp [takeWhileSplit, hy']
  | cons x xs' ih =>
    have hx0 : p x = true := hx x (by simp)
    have ih' := ih (fun c hc => hx c (by simp [hc]))
    simp [takeWhileSplit, hx0, ih']

/-- Characterization of the source's filename regex
`^([0-9]+)_([A-Za-z]+)_([0-9]+)\.json$`: it matches and produces the groups
(d1, al, d2) exactly when the name decomposes accordingly with the three
groups nonempty, the digit groups all digits and the letter group all ASCII
letters. -/
theorem matchMerkleName_iff (name d1 al d2 : List Char) :
    matchMerkleName name = some (d1, al, d2) ↔
      (name = d1 ++ ('_' :: (al ++ ('_' :: (d2 ++ ".json".toList)))) ∧
       d1 ≠ [] ∧ (∀ c ∈ d1, c.isDigit = true) ∧
       al ≠ [] ∧ (∀ c ∈ al, isAlphaChar c = true) ∧
       d2 ≠ [] ∧ (∀ c ∈ d2, c.isDigit = true)) := by
  constructor
  · intro h
    unfold matchMerkleName at h
    split at h
    next d1' r2 he1 =>
      split at h
      next al' r4 he2 =>
        split at h
        next hcond =>
          obtain ⟨hd1, hal, hd2, hr5⟩ := hcond
          injection h with h'
          have e1 : d1' = d1 := congrArg (fun x => x.1) h'
          have e2 : al' = al := congrArg (fun x => x.2.1) h'
          have e3 : (takeWhileSplit Char.isDigit r4).1 = d2 :=
            congrArg (fun x => x.2.2) h'
          rw [e1] at he1 hd1
          rw [e2] at he2 hal
          rw [e3] at hd2
          have a1 : ∀ c ∈ d1, Char.isDigit c = true := by
            have ht := tws_all Char.isDigit name
            rw [he1] at ht
            exact ht
          have a2 : ∀ c ∈ al, isAlphaChar c = true := by
            have ht := tws_all isAlphaChar r2
            rw [he2] at ht
            exact ht
          have a3 : ∀ c ∈ d2, Char.isDigit c = true := by
            have ht := tws_all Char.isDigit r4
            rw [e3] at ht
            exact ht
          have r4e : r4 = d2 ++ ".json".toList := by
            have ht := tws_recon Char.isDigit r4
            rw [hr5, e3] at ht
            exact ht.symm
          have r2e : r2 = al ++ ('_' :: r4) := by
            have ht := tws_recon isAlphaChar r2
            rw [he2] at ht
            exact ht.symm
          have r1e : name = d1 ++ ('_' :: r2) := by
            have ht := tws_recon Char.isDigit name
            rw [he1] at ht
            exact ht.symm
          refine ⟨?_, hd1, a1, hal, a2, hd2, a3⟩
          rw [r1e, r2e, r4e]
        next => exact absurd h (by simp)
      next => exact absurd h (by simp)
    next => exact absurd h (by simp)
  · rintro ⟨rfl, h1, h2, h3, h4, h5, h6⟩
    have e1 : takeWhileSplit Char.isDigit
        (d1 ++ ('_' :: (al ++ ('_' :: (d2 ++ ".json".toList)))))
        = (d1, '_' :: (al ++ ('_' :: (d2 ++ ".json".toList)))) :=
      tws_append _ h2 (by show Char.isDigit '_' = false; decide)
    have e2 : takeWhileSplit isAlphaChar (al ++ ('_' :: (d2 ++ ".json".toList)))
        = (al, '_' :: (d2 ++ ".json".toList)) :=
      tws_append _ h4 (by show isAlphaChar '_' = false; decide)
    have e3 : takeWhileSplit Char.isDigit (d2 ++ ".json".toList)
        = (d2, ".json".toList) :=
      tws_append _ h6 (by show Char.isDigit '.' = false; decide)
    unfold matchMerkleName
    rw [e1]
    simp only
    rw [e2]
    simp only
    rw [e3]
    simp [h1, h3, h5]

theorem processEntry_dir {dir : List Char} {st : ScanState} {e : DirEntry}
    (hd : e.isDir = true) : processEntry dir st e = .ok st := by
  simp [processEntry, hd]

theorem processEntry_nomatch {dir : List Char} {st : ScanState} {e : DirEntry}
    (hd : e.isDir = false) (hm : matchMerkleName e.name = none) :
    processEntry dir st e = .ok st := by
  simp [processEntry, hd, hm]

theorem processEntry_match_range {dir : List Char} {st : ScanState}
    {e : DirEntry} (hd : e.isDir = false) {d1 al d2 : List Char}
    (hm : matchMerkleName e.name = some (d1, al, d2))
    (hr : int64Max < natOfDigits d2) :
    processEntry dir st e = .error (atoiRangeErr e.name d2) := by
  simp [processEntry, hd, hm, hr]

theorem processEntry_match_zero {dir : List Char} {st : ScanState}
    {e : DirEntry} (hd : e.isDir = false) {d1 al d2 : List Char}
    (hm : matchMerkleName e.name = some (d1, al, d2))
    (hr : natOfDigits d2 ≤ int64Max) (h0 : st.cycleNum = 0) :
    processEntry dir st e
      = .ok ⟨natOfDigits d2, insertPair st.pairs ⟨d1, al.map Char.toUpper⟩⟩ := by
  simp [processEntry, hd, hm, Nat.not_lt.mpr hr, h0]

theorem processEntry_match_same {dir : List Char} {st : ScanState}
    {e : DirEntry} (hd : e.isDir = false) {d1 al d2 : List Char}
    (hm : matchMerkleName e.name = some (d1, al, d2))
    (hr : natOfDigits d2 ≤ int64Max) (_h0 : st.cycleNum ≠ 0)
    (hc : st.cycleNum = natOfDigits d2) :
    processEntry dir st e
      = .ok ⟨st.cycleNum, insertPair st.pairs ⟨d1, al.map Char.toUpper⟩⟩ := by
  simp [processEntry, hd, hm, Nat.not_lt.mpr hr, hc]

theorem processEntry_match_mismatch {dir : List Char} {st : ScanState}
    {e : DirEntry} (hd : e.isDir = false) {d1 al d2 : List Char}
    (hm : matchMerkleName e.name = some (d1, al, d2))
    (hr : natOfDigits d2 ≤ int64Max) (h0 : st.cycleNum ≠ 0)
    (hc : st.cycleNum ≠ natOfDigits d2) :
    processEntry dir st e
      = .error ("multiple cycle numbers found in ".toList ++ dir) := by
  simp [processEntry, hd, hm, Nat.not_lt.mpr hr, h0, hc]

/-- On success, `processEntry` keeps a nonzero cycle number unchanged. -/
theorem processEntry_cycleNum {dir : List Char} {st st1 : ScanState}
    {e : DirEntry} (h : processEntry dir st e = .ok st1)
    (hne : st.cycleNum ≠ 0) : st1.cycleNum = st.cycleNum := by
  by_cases hd : e.isDir = true
  · rw [processEntry_dir hd] at h
    injection h with h'
    rw [← h']
  · have hd' : e.isDir = false := eq_false_of_ne_true hd
    cases hm : matchMerkleName e.name with
    | none =>
      rw [processEntry_nomatch hd' hm] at h
      injection h with h'
      rw [← h']
    | some g =>
      obtain ⟨d1, al, d2⟩ := g
      by_cases hr : int64Max < natOfDigits d2
      · rw [processEntry_match_range hd' hm hr] at h
        cases h
      · have hr' : natOfDigits d2 ≤ int64Max := Nat.le_of_not_lt hr
        by_cases hc : st.cycleNum = natOfDigits d2
        · rw [processEntry_match_same hd' hm hr' hne hc] at h
          injection h with h'
          rw [← h']
        · rw [processEntry_match_mismatch hd' hm hr' hne hc] at h
          cases h

theorem scanDir_append (dir : List Char) (xs : List DirEntry) :
    ∀ (st : ScanState) (ys : List DirEntry),
    scanDir dir st (xs ++ ys)
      = match scanDir dir st xs with
        | .error m => .error m
        | .ok st' => scanDir dir st' ys := by
  induction xs with
  | nil => intro st ys; rfl
  | cons e xs' ih =>
    intro st ys
    show (match processEntry dir st e with
      | Except.error m => Except.error m
      | Except.ok st' => scanDir dir st' (xs' ++ ys)) = _
    cases hpe : processEntry dir st e with
    | error m => simp [scanDir, hpe]
    | ok st' => simpa [scanDir, hpe] using ih st' ys

/-- A successful scan preserves a nonzero cycle number. -/
theorem scanDir_cycleNum (dir : List Char) : ∀ (xs : List DirEntry)
    (st st' : ScanState), scanDir dir st xs = .ok st' →
    st.cycleNum ≠ 0 → st'.cycleNum = st.cycleNum := by
  intro xs
  induction xs with
  | nil =>
    intro st st' h _
    injection h with h'
    rw [← h']
  | cons e xs' ih =>
    intro st st' h hne
    rw [show scanDir dir st (e :: xs')
        = (match processEntry dir st e with
          | Except.error m => Except.error m
          | Except.ok st1 => scanDir dir st1 xs') from rfl] at h
    cases hpe : processEntry dir st e with
    | error m => rw [hpe] at h; cases h
    | ok st1 =>
      rw [hpe] at h
      have h1 : st1.cycleNum = st.cycleNum := processEntry_cycleNum hpe hne
      rw [← h1]
      exact ih st1 st' h (by rw [h1]; exact hne)

/-- From a state with a nonzero cycle number, reaching a plain-file match
with a different embedded cycle number makes the scan fail. -/
theorem scanDir_tail_error (dir : List Char) (ys zs : List DirEntry)
    (e2 : DirEntry) (hd2 : e2.isDir = false)
    {a2 b2 c2 : List Char}
    (hm2 : matchMerkleName e2.name = some (a2, b2, c2))
    (st1 : ScanState) (h0 : st1.cycleNum ≠ 0)
    (hne : st1.cycleNum ≠ natOfDigits c2) :
    ∃ m, scanDir dir st1 (ys ++ e2 :: zs) = .error m := by
  rw [scanDir_append]
  cases hy : scanDir dir st1 ys with
  | error m => exact ⟨m, rfl⟩
  | ok sty =>
    have hcy : sty.cycleNum = st1.cycleNum := scanDir_cycleNum dir ys st1 sty hy h0
    show ∃ m, (match processEntry dir sty e2 with
      | Except.error m => Except.error m
      | Except.ok st2 => scanDir dir st2 zs) = Except.error m
    by_cases hr : int64Max < natOfDigits c2
    · rw [processEntry_match_range hd2 hm2 hr]
      exact ⟨_, rfl⟩
    · rw [processEntry_match_mismatch hd2 hm2 (Nat.le_of_not_lt hr)
        (by rw [hcy]; exact h0) (by rw [hcy]; exact hne)]
      exact ⟨_, rfl⟩

/-- From a fresh state, a directory whose entries contain (in order) two
plain-file matches with distinct nonzero embedded cycle numbers always makes
the scan fail. -/
theorem scanDir_mismatch_error (dir : List Char)
    (xs ys zs : List DirEntry) (e1 e2 : DirEntry)
    (hd1 : e1.isDir = false) (hd2 : e2.isDir = false)
    {a1 b1 c1 a2 b2 c2 : List Char}
    (hm1 : matchMerkleName e1.name = some (a1, b1, c1))
    (hm2 : matchMerkleName e2.name = some (a2, b2, c2))
    (hz1 : natOfDigits c1 ≠ 0)
    (hcc : natOfDigits c1 ≠ natOfDigits c2) :
    ∃ m, scanDir dir ⟨0, []⟩ (xs ++ e1 :: (ys ++ e2 :: zs)) = .error m := by
  rw [scanDir_append]
  cases hx : scanDir dir ⟨0, []⟩ xs with
  | error m => exact ⟨m, rfl⟩
  | ok stx =>
    show ∃ m, (match processEntry dir stx e1 with
      | Except.error m => Except.error m
      | Except.ok st1 => scanDir dir st1 (ys ++ e2 :: zs)) = Except.error m
    by_cases hr1 : int64Max < natOfDigits c1
    · rw [processEntry_match_range hd1 hm1 hr1]
      exact ⟨_, rfl⟩
    · have hr1' : natOfDigits c1 ≤ int64Max := Nat.le_of_not_lt hr1
      by_cases h0 : stx.cycleNum = 0
      · rw [processEntry_match_zero hd1 hm1 hr1' h0]
        exact scanDir_tail_error dir ys zs e2 hd2 hm2 _ hz1 hcc
      · by_cases hc : stx.cycleNum = natOfDigits c1
        · rw [processEntry_match_same hd1 hm1 hr1' h0 hc]
          exact scanDir_tail_error dir ys zs e2 hd2 hm2 _ h0
            (by rw [hc]; exact hcc)
        · rw [processEntry_match_mismatch hd1 hm1 hr1' h0 hc]
          exact ⟨_, rfl⟩

/-- C1 counterexample.  The claim fails as literally stated for every text:
with prefix "/cycle-2/1_A_2.jsonZ", cycle 3 and pair (1, A), the
previous-cycle URL is "/cycle-2/1_A_2.jsonZ/cycle-2/1_A_2.json" and occurs
twice (overlapping) in the text below, while the old-cycle URL does not occur
at all; the run replaces only the leftmost occurrence, so the output contains
the new-cycle URL once, not twice: the second literal occurrence of the
previous-cycle URL was not replaced with the new-cycle URL. -/
theorem c1_counterexample :
    occCount
      "/cycle-2/1_A_2.jsonZ/cycle-2/1_A_2.jsonZ/cycle-2/1_A_2.json".toList
      (urlFor "/cycle-2/1_A_2.jsonZ".toList 2 ⟨"1".toList, "A".toList⟩) = 2
    ∧ occCount
      "/cycle-2/1_A_2.jsonZ/cycle-2/1_A_2.jsonZ/cycle-2/1_A_2.json".toList
      (urlFor "/cycle-2/1_A_2.jsonZ".toList 1 ⟨"1".toList, "A".toList⟩) = 0
    ∧ (rewriteText "/cycle-2/1_A_2.jsonZ".toList 3 [⟨"1".toList, "A".toList⟩]
        "/cycle-2/1_A_2.jsonZ/cycle-2/1_A_2.jsonZ/cycle-2/1_A_2.json".toList).1
      = "/cycle-2/1_A_2.jsonZ/cycle-3/1_A_3.jsonZ/cycle-2/1_A_2.json".toList
    ∧ occCount
      "/cycle-2/1_A_2.jsonZ/cycle-3/1_A_3.jsonZ/cycle-2/1_A_2.json".toList
      (urlFor "/cycle-2/1_A_2.jsonZ".toList 3 ⟨"1".toList, "A".toList⟩) = 1 := by
  decide

/-- C1 (amended).  For every configuration text that decomposes into inert
segments and whole-URL occurrences, where every generated URL starts with a
marker character occurring nowhere else (so occurrences are non-overlapping
and replacements cannot create or destroy occurrences), no generated URL is a
prefix of another, the generated URLs are pairwise distinct, and the
discovered pairs are distinct (as Go map keys are): the rewriter's text
transform replaces every occurrence of the previous-cycle URL of a pair with
its new-cycle URL and every occurrence of the old-cycle URL with the
previous-cycle URL, globally, and without cascading - an occurrence that was
originally the old-cycle URL ends as the previous-cycle URL, never the
new-cycle URL. -/
theorem c1_thm {pfx : List Char} {n : Nat} {x0 : Char} {ps : List pair}
    (hn : 2 ≤ n)
    (hatoms : atomsOK x0 (allURLs pfx n ps) = true)
    (hcompat : compatOK (allURLs pfx n ps) = true)
    (hinj : urlsInj pfx n ps = true)
    (hnd : ps.Nodup)
    (us : List (List Char)) (toks : List (pair × Bool))
    (hlen : us.length = toks.length + 1)
    (htoks : ∀ tk ∈ toks, tk.1 ∈ ps)
    (hus : ∀ u ∈ us, ∀ c ∈ u, c ≠ x0) :
    (rewriteText pfx n ps (glue us (toks.map (tokInit pfx n)))).1
      = glue us (toks.map (tokFinal pfx n)) := by
  have h0 : toks.map (tokInit pfx n) = toks.map (tokStr pfx n []) :=
    List.map_congr_left fun tk _ => by simp [tokStr]
  have h1 := foldl_applyPair_glue hn hatoms hcompat hinj us toks hlen htoks hus
    ps [] false (fun p hp => hp) (fun p _ h => List.not_mem_nil p h) hnd
  show (ps.foldl (applyPair pfx n)
      (glue us (toks.map (tokInit pfx n)), false)).1 = _
  rw [h0, h1]
  congr 1
  exact List.map_congr_left fun tk htk => by
    simp [tokStr, tokFinal, htoks tk htk]

/-- Witness for the amended C1 at a concrete input: one pair (1, A), cycle 3,
prefix "#", one previous-cycle token between segments "a" and "b". -/
theorem c1_witness :
    (rewriteText "#".toList 3 [⟨"1".toList, "A".toList⟩]
      (glue ["a".toList, "b".toList]
        ([(⟨"1".toList, "A".toList⟩, true)].map (tokInit "#".toList 3)))).1
    = glue ["a".toList, "b".toList]
        ([(⟨"1".toList, "A".toList⟩, true)].map (tokFinal "#".toList 3)) :=
  @c1_thm "#".toList 3 '#' [⟨"1".toList, "A".toList⟩]
    (by decide) (by decide) (by decide) (by decide) (by decide)
    ["a".toList, "b".toList] [(⟨"1".toList, "A".toList⟩, true)]
    (by decide) (by decide) (by decide)

/-! ### Fetcher lemmas -/

theorem nodup_append_single {α : Type} {l : List α} {a : α}
    (h : l.Nodup) (ha : a ∉ l) : (l ++ [a]).Nodup := by
  induction l with
  | nil => simp
  | cons b l ih =>
    rcases List.nodup_cons.mp h with ⟨hb, hl⟩
    have ha' : a ∉ l := fun h' => ha (by simp [h'])
    have hba : b ≠ a := fun h' => ha (by simp [h'])
    refine List.nodup_cons.mpr ⟨?_, ih hl ha'⟩
    intro h'
    rcases List.mem_append.mp h' with h'' | h''
    · exact hb h''
    · rcases List.mem_singleton.mp h'' with rfl
      exact hba rfl

/-- Any success of the row body either skipped the row (state unchanged) or
appended exactly one item whose key was fresh. -/
theorem processPage_ok_shape {cfg : FetchCfg} {m : Mapping}
    {cycleStr : List Char} {st st' : FetchState} {pg : Page}
    (h : processPage cfg m cycleStr st pg = .ok st') :
    st' = st ∨ ∃ chainID rewardType url : List Char,
      rowKey chainID rewardType ∉ st.seen ∧
      st' = ⟨rowKey chainID rewardType :: st.seen,
             insertStr st.seenChains chainID,
             st.items ++ [⟨chainID, rewardType, pg.id, url⟩]⟩ := by
  unfold processPage at h
  repeat' split at h
  any_goals exact Except.noConfusion h
  · injection h with h'
    exact Or.inl h'.symm
  · rename_i hdup
    injection h with h'
    exact Or.inr ⟨_, _, _, hdup, h'.symm⟩

theorem FetchInv_insert {st : FetchState} (hinv : FetchInv st)
    {chainID rewardType pid url : List Char}
    (hdup : rowKey chainID rewardType ∉ st.seen) :
    FetchInv ⟨rowKey chainID rewardType :: st.seen,
              insertStr st.seenChains chainID,
              st.items ++ [⟨chainID, rewardType, pid, url⟩]⟩ := by
  obtain ⟨hmem, hnd⟩ := hinv
  constructor
  · intro k
    simp only [List.mem_cons, List.map_append, List.mem_append]
    constructor
    · rintro (rfl | hk)
      · right
        simp [itemKey]
      · exact Or.inl ((hmem k).mp hk)
    · rintro (hk | hk)
      · exact Or.inr ((hmem k).mpr hk)
      · left
        simpa [itemKey] using hk
  · rw [List.map_append]
    refine nodup_append_single hnd ?_
    intro hmem'
    exact hdup ((hmem _).mpr hmem')

theorem processPage_inv {cfg : FetchCfg} {m : Mapping} {cycleStr : List Char}
    {st st' : FetchState} {pg : Page}
    (h : processPage cfg m cycleStr st pg = .ok st') (hinv : FetchInv st) :
    FetchInv st' := by
  rcases processPage_ok_shape h with rfl | ⟨chainID, rewardType, url, hdup, rfl⟩
  · exact hinv
  · exact FetchInv_insert hinv hdup

theorem processPages_inv (cfg : FetchCfg) (m : Mapping) (cycleStr : List Char) :
    ∀ (pages : List Page) (st st' : FetchState),
    processPages cfg m cycleStr st pages = .ok st' → FetchInv st →
    FetchInv st' := by
  intro pages
  induction pages with
  | nil =>
    intro st st' h hinv
    injection h with h'
    rw [← h']
    exact hinv
  | cons pg rest ih =>
    intro st st' h hinv
    rw [show processPages cfg m cycleStr st (pg :: rest)
        = (match processPage cfg m cycleStr st pg with
          | Except.error e => Except.error e
          | Except.ok st1 => processPages cfg m cycleStr st1 rest) from rfl] at h
    cases hpe : processPage cfg m cycleStr st pg with
    | error e => rw [hpe] at h; exact Except.noConfusion h
    | ok st1 =>
      rw [hpe] at h
      exact ih st1 st' h (processPage_inv hpe hinv)

theorem firstMissing_spec : ∀ (chains : List (List Char × List Char))
    (seen : List (List Char)) (nm cid : List Char),
    (nm, cid) ∈ chains → cid ∉ seen →
    ∃ pr, firstMissing chains seen = some pr ∧ pr ∈ chains ∧ pr.2 ∉ seen := by
  intro chains
  induction chains with
  | nil =>
    intro seen nm cid h
    simp at h
  | cons pr0 rest ih =>
    intro seen nm cid hmem hns
    obtain ⟨n0, c0⟩ := pr0
    by_cases h0 : c0 ∈ seen
    · rcases List.mem_cons.mp hmem with he | hm'
      · have : cid = c0 := congrArg (fun x => x.2) he
        exact absurd (this ▸ h0) hns
      · obtain ⟨pr, hfm, hin, hns'⟩ := ih seen nm cid hm' hns
        exact ⟨pr, by simp [firstMissing, h0, hfm], by simp [hin], hns'⟩
    · exact ⟨(n0, c0), by simp [firstMissing, h0], by simp, h0⟩

/-! ### Claim C3 -/

/-- C3 counterexample.  The claim fails when one of the matched filenames
encodes cycle number 0: the source uses 0 as the "not yet seen" sentinel, so
a directory holding 1_A_0.json and 1_A_5.json - two matched filenames
encoding two different cycle numbers - passes the consistency check (ReadDir
returns names sorted, so the 0 entry is seen first), and the rewriter then
proceeds and modifies the target file instead of failing. -/
theorem c3_counterexample :
    matchMerkleName "1_A_0.json".toList
      = some ("1".toList, "A".toList, "0".toList)
    ∧ matchMerkleName "1_A_5.json".toList
      = some ("1".toList, "A".toList, "5".toList)
    ∧ natOfDigits "0".toList ≠ natOfDigits "5".toList
    ∧ scanDir "d".toList ⟨0, []⟩
        [⟨"1_A_0.json".toList, false⟩, ⟨"1_A_5.json".toList, false⟩]
      = .ok ⟨5, [⟨"1".toList, "A".toList⟩]⟩
    ∧ rewriterMain ⟨"v".toList, "d".toList, "#".toList⟩
        (.ok [⟨"1_A_0.json".toList, false⟩, ⟨"1_A_5.json".toList, false⟩])
        (.ok "#/cycle-4/1_A_4.json".toList)
      = .exit0 (some "#/cycle-5/1_A_5.json".toList)
          "Updated values.yaml via URL string replacement only.".toList := by
  decide

/-- C3 (amended).  If a cycle directory contains (in any positions, in
order) two plain-file entries whose names match the pattern and encode two
different nonzero cycle numbers, the scan fails with an error, and the
rewriter run exits via die (exit code 1) without writing the target file. -/
theorem c3_thm (xs ys zs : List DirEntry) (e1 e2 : DirEntry)
    (hd1 : e1.isDir = false) (hd2 : e2.isDir = false)
    {a1 b1 c1 a2 b2 c2 : List Char}
    (hm1 : matchMerkleName e1.name = some (a1, b1, c1))
    (hm2 : matchMerkleName e2.name = some (a2, b2, c2))
    (hz1 : natOfDigits c1 ≠ 0) (_hz2 : natOfDigits c2 ≠ 0)
    (hcc : natOfDigits c1 ≠ natOfDigits c2) :
    (∀ dir : List Char,
      ∃ m, scanDir dir ⟨0, []⟩ (xs ++ e1 :: (ys ++ e2 :: zs)) = .error m)
    ∧ ∀ (fl : RewriterFlags) (fr : Except (List Char) (List Char)),
        exitCode (rewriterMain fl (.ok (xs ++ e1 :: (ys ++ e2 :: zs))) fr) = 1
        ∧ fileWritten (rewriterMain fl (.ok (xs ++ e1 :: (ys ++ e2 :: zs))) fr)
            = none := by
  constructor
  · intro dir
    exact scanDir_mismatch_error dir xs ys zs e1 e2 hd1 hd2 hm1 hm2 hz1 hcc
  · intro fl fr
    by_cases hfl : fl.valuesPath = [] ∨ fl.cycleDir = []
    · simp [rewriterMain, hfl, exitCode, fileWritten]
    · obtain ⟨m, hm⟩ := scanDir_mismatch_error fl.cycleDir xs ys zs e1 e2
        hd1 hd2 hm1 hm2 hz1 hcc
      simp [rewriterMain, hfl, hm, exitCode, fileWritten]

/-- Witness for the amended C3 at a concrete directory. -/
theorem c3_witness :
    (∃ m, scanDir "d".toList ⟨0, []⟩
        [⟨"1_A_3.json".toList, false⟩, ⟨"1_A_4.json".toList, false⟩]
      = .error m)
    ∧ exitCode (rewriterMain ⟨"v".toList, "d".toList, "#".toList⟩
        (.ok [⟨"1_A_3.json".toList, false⟩, ⟨"1_A_4.json".toList, false⟩])
        (.ok [])) = 1 := by
  have h := @c3_thm [] [] [] ⟨"1_A_3.json".toList, false⟩
    ⟨"1_A_4.json".toList, false⟩ rfl rfl
    "1".toList "A".toList "3".toList "1".toList "A".toList "4".toList
    (by decide) (by decide) (by decide) (by decide) (by decide)
  exact ⟨h.1 "d".toList,
    (h.2 ⟨"v".toList, "d".toList, "#".toList⟩ (.ok [])).1⟩

/-! ### Claim C4 -/

/-- C4 counterexample.  The claim fails as literally stated: the name below
is a plain file matching the pattern, yet the entry is not "extracted
exactly" - its cycle group exceeds int64, so `strconv.Atoi` fails and the
run dies with the wrapped range error (source lines 46-49) instead of
recording the triple. -/
theorem c4_counterexample :
    matchMerkleName "1_A_99999999999999999999.json".toList
      = some ("1".toList, "A".toList, "99999999999999999999".toList)
    ∧ int64Max < natOfDigits "99999999999999999999".toList
    ∧ processEntry "d".toList ⟨0, []⟩
        ⟨"1_A_99999999999999999999.json".toList, false⟩
      = .error (atoiRangeErr "1_A_99999999999999999999.json".toList
          "99999999999999999999".toList) := by
  decide

/-- C4 (amended).  The filename regex matches exactly the names of the form
digits_letters_digits.json and then extracts the triple (first digit group,
letter group, last digit group); a directory entry is ignored without error
when it is a directory or its name does not match; on a match whose cycle
group fits int64, from a fresh state, the scan records exactly (chainID =
first digit group, rewardType = upper-cased letter group, cycle = last
digit group read as a decimal integer); and a match whose cycle group
exceeds int64 is a fatal `strconv.Atoi` range error, not an extraction. -/
theorem c4_thm :
    (∀ name d1 al d2 : List Char,
      matchMerkleName name = some (d1, al, d2) ↔
        (name = d1 ++ ('_' :: (al ++ ('_' :: (d2 ++ ".json".toList)))) ∧
         d1 ≠ [] ∧ (∀ c ∈ d1, c.isDigit = true) ∧
         al ≠ [] ∧ (∀ c ∈ al, isAlphaChar c = true) ∧
         d2 ≠ [] ∧ (∀ c ∈ d2, c.isDigit = true)))
    ∧ (∀ (dir : List Char) (st : ScanState) (e : DirEntry), e.isDir = true →
        processEntry dir st e = .ok st)
    ∧ (∀ (dir : List Char) (st : ScanState) (e : DirEntry), e.isDir = false →
        matchMerkleName e.name = none → processEntry dir st e = .ok st)
    ∧ (∀ (dir : List Char) (st : ScanState) (e : DirEntry)
        (d1 al d2 : List Char),
        e.isDir = false → matchMerkleName e.name = some (d1, al, d2) →
        natOfDigits d2 ≤ int64Max → st.cycleNum = 0 →
        processEntry dir st e
          = .ok ⟨natOfDigits d2, insertPair st.pairs ⟨d1, al.map Char.toUpper⟩⟩)
    ∧ (∀ (dir : List Char) (st : ScanState) (e : DirEntry)
        (d1 al d2 : List Char),
        e.isDir = false → matchMerkleName e.name = some (d1, al, d2) →
        int64Max < natOfDigits d2 →
        processEntry dir st e = .error (atoiRangeErr e.name d2)) :=
  ⟨matchMerkleName_iff, fun _ _ _ h => processEntry_dir h,
   fun _ _ _ h hm => processEntry_nomatch h hm,
   fun _ _ _ _ _ _ h hm hr h0 => processEntry_match_zero h hm hr h0,
   fun _ _ _ _ _ _ h hm hr => processEntry_match_range h hm hr⟩

/-- Witness for the amended C4 on concrete entries: a matching name, a
directory, a non-matching plain file, the extracted triple for an in-range
cycle, and the fatal range error for an out-of-range cycle. -/
theorem c4_witness :
    matchMerkleName "12_ab_34.json".toList
      = some ("12".toList, "ab".toList, "34".toList)
    ∧ processEntry "d".toList ⟨0, []⟩ ⟨"sub".toList, true⟩ = .ok ⟨0, []⟩
    ∧ processEntry "d".toList ⟨0, []⟩ ⟨"README.md".toList, false⟩ = .ok ⟨0, []⟩
    ∧ processEntry "d".toList ⟨0, []⟩ ⟨"12_ab_34.json".toList, false⟩
        = .ok ⟨34, [⟨"12".toList, "AB".toList⟩]⟩
    ∧ processEntry "d".toList ⟨0, []⟩
        ⟨"9_Z_9999999999999999999.json".toList, false⟩
      = .error (atoiRangeErr "9_Z_9999999999999999999.json".toList
          "9999999999999999999".toList) := by
  refine ⟨(c4_thm.1 _ _ _ _).mpr (by decide), c4_thm.2.1 _ _ _ rfl,
    c4_thm.2.2.1 _ _ _ rfl (by decide), ?_, ?_⟩
  · have h := c4_thm.2.2.2.1 "d".toList ⟨0, []⟩
      ⟨"12_ab_34.json".toList, false⟩
      "12".toList "ab".toList "34".toList rfl (by decide) (by decide) rfl
    rw [h]
    decide
  · exact c4_thm.2.2.2.2 "d".toList ⟨0, []⟩
      ⟨"9_Z_9999999999999999999.json".toList, false⟩
      "9".toList "Z".toList "9999999999999999999".toList rfl (by decide)
      (by decide)

/-! ### Claim C2 -/

/-- C2 counterexample.  A configuration file consisting of just the old-cycle
URL: the first run rewrites it to the previous-cycle URL (source loop, second
substitution); the second run on that output then finds the previous-cycle
URL and reports changes again - the second run is not a no-op. -/
theorem c2_counterexample :
    (rewriteText "#".toList 3 [⟨"1".toList, "A".toList⟩]
        "#/cycle-1/1_A_1.json".toList).1
      = "#/cycle-2/1_A_2.json".toList
    ∧ (rewriteText "#".toList 3 [⟨"1".toList, "A".toList⟩]
        ((rewriteText "#".toList 3 [⟨"1".toList, "A".toList⟩]
          "#/cycle-1/1_A_1.json".toList).1)).2 = true := by
  decide

/-- C2 (amended).  Running the rewriter a second time on the output of a
first run (same pairs, prefix and cycle) performs no substitution if and only
if the first run's output text contains no occurrence of the previous-cycle
or old-cycle URL of any pair; and when the second run reports no changes, it
leaves the text untouched.  (The unconditional claim fails: a first input
containing the old-cycle URL leaves the previous-cycle URL in the output,
which the second run rewrites again.) -/
theorem c2_thm (pfx : List Char) (n : Nat) (ps : List pair) (t : List Char) :
    ((rewriteText pfx n ps ((rewriteText pfx n ps t).1)).2 = false ↔
      ∀ p ∈ ps,
        containsSub (rewriteText pfx n ps t).1 (urlFor pfx (n - 1) p) = false ∧
        containsSub (rewriteText pfx n ps t).1 (urlFor pfx (n - 2) p) = false)
    ∧ ((rewriteText pfx n ps ((rewriteText pfx n ps t).1)).2 = false →
        (rewriteText pfx n ps ((rewriteText pfx n ps t).1)).1
          = (rewriteText pfx n ps t).1) :=
  ⟨rewriteText_nochange_iff pfx n ps ((rewriteText pfx n ps t).1),
   fun h => rewriteText_nochange_text h⟩

/-- Witness for the amended C2 at a concrete input: with no URL present the
second run (indeed both runs) makes no change and keeps the text. -/
theorem c2_witness :
    (rewriteText "#".toList 3 [⟨"1".toList, "A".toList⟩]
      ((rewriteText "#".toList 3 [⟨"1".toList, "A".toList⟩] "xy".toList).1)).1
      = (rewriteText "#".toList 3 [⟨"1".toList, "A".toList⟩] "xy".toList).1 :=
  (c2_thm "#".toList 3 [⟨"1".toList, "A".toList⟩] "xy".toList).2 (by decide)

/-! ### Claim C5 -/

/-- C5 counterexample.  With prefix "/cycle-3/7_B_3.jsonW", cycle 4 and pair
(7, B), the text below contains the previous-cycle URL at position 20 (it
overlaps the occurrence at position 0); after the run, the text at position
20 is not the new-cycle URL, and the new-cycle URL appears only once although
the previous-cycle URL occurred twice: not every occurrence became the
new-cycle URL. -/
theorem c5_counterexample :
    isPre (urlFor "/cycle-3/7_B_3.jsonW".toList 3 ⟨"7".toList, "B".toList⟩)
      (("/cycle-3/7_B_3.jsonW/cycle-3/7_B_3.jsonW/cycle-3/7_B_3.json".toList).drop 20)
      = true
    ∧ (rewriteText "/cycle-3/7_B_3.jsonW".toList 4 [⟨"7".toList, "B".toList⟩]
        "/cycle-3/7_B_3.jsonW/cycle-3/7_B_3.jsonW/cycle-3/7_B_3.json".toList).1
      = "/cycle-3/7_B_3.jsonW/cycle-4/7_B_4.jsonW/cycle-3/7_B_3.json".toList
    ∧ isPre (urlFor "/cycle-3/7_B_3.jsonW".toList 4 ⟨"7".toList, "B".toList⟩)
      (("/cycle-3/7_B_3.jsonW/cycle-4/7_B_4.jsonW/cycle-3/7_B_3.json".toList).drop 20)
      = false
    ∧ occCount
      "/cycle-3/7_B_3.jsonW/cycle-4/7_B_4.jsonW/cycle-3/7_B_3.json".toList
      (urlFor "/cycle-3/7_B_3.jsonW".toList 4 ⟨"7".toList, "B".toList⟩) = 1 := by
  decide

/-- C5 (amended).  For every target text of the form a ++ previousURL(p) ++ b
with p a discovered pair, where the generated URLs start with a marker
character that occurs in neither a nor b (so the shown occurrence is the only
one and no occurrence spans a boundary), no generated URL is a prefix of
another and the URLs are pairwise distinct, and the discovered pairs are
distinct: the run rewrites that occurrence to the new-cycle URL and leaves
the unrelated segments a and b byte-for-byte unchanged. -/
theorem c5_thm {pfx : List Char} {n : Nat} {x0 : Char} {ps : List pair}
    {p : pair} (hp : p ∈ ps)
    (hn : 2 ≤ n)
    (hatoms : atomsOK x0 (allURLs pfx n ps) = true)
    (hcompat : compatOK (allURLs pfx n ps) = true)
    (hinj : urlsInj pfx n ps = true)
    (hnd : ps.Nodup)
    (a b : List Char) (ha : ∀ c ∈ a, c ≠ x0) (hb : ∀ c ∈ b, c ≠ x0) :
    (rewriteText pfx n ps (a ++ urlFor pfx (n - 1) p ++ b)).1
      = a ++ urlFor pfx n p ++ b := by
  have hus : ∀ u ∈ [a, b], ∀ c ∈ u, c ≠ x0 := by
    intro u hu
    rcases List.mem_cons.mp hu with rfl | hu'
    · exact ha
    · rcases List.mem_cons.mp hu' with rfl | hu''
      · exact hb
      · exact absurd hu'' (List.not_mem_nil u)
  have htoks : ∀ tk ∈ [(p, true)], tk.1 ∈ ps := by
    intro tk htk
    rcases List.mem_singleton.mp htk with rfl
    exact hp
  have h := foldl_applyPair_glue hn hatoms hcompat hinj [a, b] [(p, true)]
    (by simp) htoks hus ps [] false (fun q hq => hq)
    (fun q _ h => List.not_mem_nil q h) hnd
  have e1 : tokStr pfx n [] (p, true) = urlFor pfx (n - 1) p := by
    simp [tokStr, tokInit]
  have e2 : tokStr pfx n ([] ++ ps) (p, true) = urlFor pfx n p := by
    simp [tokStr, tokFinal, hp]
  have g1 : glue [a, b] ([(p, true)].map (tokStr pfx n []))
      = a ++ urlFor pfx (n - 1) p ++ b := by
    show a ++ tokStr pfx n [] (p, true) ++ glue [b] [] = _
    rw [e1]
    rfl
  have g2 : glue [a, b] ([(p, true)].map (tokStr pfx n ([] ++ ps)))
      = a ++ urlFor pfx n p ++ b := by
    show a ++ tokStr pfx n ([] ++ ps) (p, true) ++ glue [b] [] = _
    rw [e2]
    rfl
  show (ps.foldl (applyPair pfx n) (a ++ urlFor pfx (n - 1) p ++ b, false)).1 = _
  rw [← g1, h, g2]

/-- Witness for the amended C5 at a concrete input. -/
theorem c5_witness :
    (rewriteText "#".toList 5 [⟨"9".toList, "LM".toList⟩]
      ("x".toList ++ urlFor "#".toList 4 ⟨"9".toList, "LM".toList⟩ ++ "y".toList)).1
      = "x".toList ++ urlFor "#".toList 5 ⟨"9".toList, "LM".toList⟩ ++ "y".toList :=
  @c5_thm "#".toList 5 '#' [⟨"9".toList, "LM".toList⟩]
    ⟨"9".toList, "LM".toList⟩ (by decide) (by decide) (by decide) (by decide)
    (by decide) (by decide) "x".toList "y".toList (by decide) (by decide)

/-! ### Claim C7 -/

/-- C7 (confirmed).  A validated row whose (chain, type) key was already
produced by an earlier row makes the fetcher fail at that row with the
duplicate error (never a silent skip), and consequently any successful
enumeration from the fresh state accumulates download items with pairwise
distinct (chain, type) keys. -/
theorem c7_thm :
    (∀ (cfg : FetchCfg) (m : Mapping) (cycleStr : List Char) (pages : List Page)
       (st' : FetchState),
      processPages cfg m cycleStr ⟨[], [], []⟩ pages = .ok st' →
      (st'.items.map itemKey).Nodup)
    ∧ (∀ (cfg : FetchCfg) (m : Mapping) (cycleStr : List Char) (st : FetchState)
         (pg : Page) (tp cp : PropertyVal) (so : SelOpt) (chainID : List Char)
         (yp : PropertyVal) (tn : SelOpt) (rewardType : List Char)
         (fp : PropertyVal) (f : NotionFile) (url : List Char),
        List.lookup cfg.propTitle pg.properties = some tp →
        tp.ptype = "title".toList →
        containsSub (titleText tp) cycleStr = true →
        List.lookup cfg.propChain pg.properties = some cp →
        cp.select = some so →
        so.name ≠ [] →
        List.lookup so.name m.chains = some chainID →
        List.lookup cfg.propType pg.properties = some yp →
        yp.ptype = "multi_select".toList →
        yp.multiSelect = [tn] →
        List.lookup tn.name m.types = some rewardType →
        List.lookup cfg.propFile pg.properties = some fp →
        fp.ptype = "files".toList →
        fp.files = [f] →
        fileURL f = .ok url →
        rowKey chainID rewardType ∈ st.seen →
        processPage cfg m cycleStr st pg
          = .error (pgErr pg ("duplicate chain/type ".toList
              ++ rowKey chainID rewardType))) := by
  constructor
  · intro cfg m cycleStr pages st' h
    exact (processPages_inv cfg m cycleStr pages ⟨[], [], []⟩ st' h
      ⟨fun k => by simp, by simp⟩).2
  · intro cfg m cycleStr st pg tp cp so chainID yp tn rewardType fp f url
      hl ht hc hcp hsel hso hmc hyp hyt hms hmt hfp hft hf1 hfu hdup
    simp [processPage, hl, ht, hc, hcp, hsel, hso, hmc, hyp, hyt, hms, hmt,
      hfp, hft, hf1, hfu, hdup]

/-- Witness for C7: the sample page accumulates a duplicate-free key set,
and re-processing the same row against the already-seen state fails with the
duplicate error. -/
theorem c7_witness :
    (sampleState.items.map itemKey).Nodup
    ∧ processPage sampleCfg sampleMapping (cycleStrOf sampleCfg) sampleState
        samplePage
      = .error (pgErr samplePage ("duplicate chain/type ".toList
          ++ rowKey "1".toList "TRADING".toList)) :=
  ⟨c7_thm.1 sampleCfg sampleMapping (cycleStrOf sampleCfg) [samplePage]
      sampleState (by decide),
   c7_thm.2 sampleCfg sampleMapping (cycleStrOf sampleCfg) sampleState
      samplePage titleProp chainProp ⟨"Ethereum".toList⟩ "1".toList typeProp
      ⟨"Trading".toList⟩ "TRADING".toList fileProp
      ⟨"m.json".toList, "file".toList, some ⟨"https://x/m.json".toList, []⟩, none⟩
      "https://x/m.json".toList
      (by decide) (by decide) (by decide) (by decide) (by decide) (by decide)
      (by decide) (by decide) (by decide) (by decide) (by decide) (by decide)
      (by decide) (by decide) (by decide) (by decide)⟩

/-! ### Claim C8 -/

/-- C8 (confirmed).  When the flags and pre-checks pass, the enumeration
succeeds with a nonempty item list, and some chain id of the mapping's chains
table is not among the seen chains, the fetcher fails with the missing-chain
error for such a chain, and its write log is empty: the completeness check
runs before the directory creation and before any download, so no output
file is written. -/
theorem c8_thm (cfg : FetchCfg) (mp : Mapping)
    (dataSources : List (List Char)) (dirNonempty : Bool)
    (pages : List Page) (dl : List Char → Except (List Char) (List Char))
    (st : FetchState) (nm cid : List Char)
    (h1 : ¬(cfg.databaseID = [] ∨ cfg.cycle = 0))
    (h2 : ¬cfg.notionToken = [])
    (h3 : ¬(cfg.statusType ≠ "status".toList ∧ cfg.statusType ≠ "select".toList))
    (h4 : dataSources ≠ [])
    (h5 : ¬(dirNonempty = true ∧ cfg.allowExisting = false))
    (h6 : processPages cfg mp (cycleStrOf cfg) ⟨[], [], []⟩ pages = .ok st)
    (h7 : st.items ≠ [])
    (h8 : (nm, cid) ∈ mp.chains) (h9 : cid ∉ st.seenChains) :
    (fetcherMain cfg (.ok mp) dataSources dirNonempty pages dl).2 = []
    ∧ ∃ nm' cid', (nm', cid') ∈ mp.chains ∧ cid' ∉ st.seenChains ∧
        (fetcherMain cfg (.ok mp) dataSources dirNonempty pages dl).1
          = .error (missingChainMsg nm' cid' (cycleStrOf cfg)) := by
  obtain ⟨pr, hfm, hin, hns⟩ :=
    firstMissing_spec mp.chains st.seenChains nm cid h8 h9
  cases dataSources with
  | nil => exact absurd rfl h4
  | cons d0 ds =>
    have h3' : cfg.statusType = "status".toList
        ∨ cfg.statusType = "select".toList := by
      rcases not_and_or.mp h3 with h | h
      · exact Or.inl (not_not.mp h)
      · exact Or.inr (not_not.mp h)
    have hmain : fetcherMain cfg (.ok mp) (d0 :: ds) dirNonempty pages dl
        = (.error (missingChainMsg pr.1 pr.2 (cycleStrOf cfg)), []) := by
      rcases h3' with h3' | h3' <;>
        simp [fetcherMain, h1, h2, h3', h5, h6, h7, hfm]
    rw [hmain]
    exact ⟨rfl, pr.1, pr.2, by simpa using hin, hns, rfl⟩

/-- Witness for C8: a mapping with two chains but query results covering only
chain 1 fails with the missing-chain error for Base and writes nothing. -/
theorem c8_witness :
    (fetcherMain sampleCfg (.ok twoChainMapping) ["ds1".toList] false
      [samplePage] (fun _ => .ok "data".toList)).2 = []
    ∧ ∃ nm' cid', (nm', cid') ∈ twoChainMapping.chains
        ∧ cid' ∉ sampleState.seenChains
        ∧ (fetcherMain sampleCfg (.ok twoChainMapping) ["ds1".toList] false
            [samplePage] (fun _ => .ok "data".toList)).1
          = .error (missingChainMsg nm' cid' (cycleStrOf sampleCfg)) :=
  c8_thm sampleCfg twoChainMapping ["ds1".toList] false [samplePage]
    (fun _ => .ok "data".toList) sampleState "Base".toList "8453".toList
    (by decide) (by decide) (by decide) (by decide) (by decide) (by decide)
    (by decide) (by decide) (by decide)

/-! ### Claim C9 -/

/-- C9 counterexample.  A file entry with declared type "external" but both
URLs present: the source resolves the external URL, while the claim's
"prefer the internal hosted URL" resolution (fileURLSpec, written from the
spec's words) yields the internal one. -/
theorem c9_counterexample :
    fileURL ⟨"m".toList, "external".toList, some ⟨"I".toList, []⟩,
        some ⟨"E".toList⟩⟩
      = .ok "E".toList
    ∧ fileURLSpec ⟨"m".toList, "external".toList, some ⟨"I".toList, []⟩,
        some ⟨"E".toList⟩⟩
      = .ok "I".toList := by
  decide

/-- C9 (amended).  The fetcher requires exactly one file entry (fatal
otherwise, with the count in the message), resolves the URL preferring the
URL whose kind matches the entry's declared type - internal for "file",
external for "external" - then falls back to the internal and finally the
external URL regardless of the declared type; a row whose single entry has
no URL at all is a fatal error, and a fileURL error aborts the row. -/
theorem c9_thm :
    (∀ f : NotionFile, f.ftype = "file".toList → furl f.file ≠ [] →
        fileURL f = .ok (furl f.file))
    ∧ (∀ f : NotionFile, f.ftype = "external".toList → xurl f.ext ≠ [] →
        fileURL f = .ok (xurl f.ext))
    ∧ (∀ f : NotionFile, ¬(f.ftype = "file".toList ∧ furl f.file ≠ [])
        → ¬(f.ftype = "external".toList ∧ xurl f.ext ≠ [])
        → furl f.file ≠ [] → fileURL f = .ok (furl f.file))
    ∧ (∀ f : NotionFile, ¬(f.ftype = "file".toList ∧ furl f.file ≠ [])
        → ¬(f.ftype = "external".toList ∧ xurl f.ext ≠ [])
        → furl f.file = [] → xurl f.ext ≠ [] → fileURL f = .ok (xurl f.ext))
    ∧ (∀ f : NotionFile, furl f.file = [] → xurl f.ext = [] →
        fileURL f = .error ("file entry ".toList ++ quoted f.name
          ++ " has no downloadable URL".toList))
    ∧ (∀ (cfg : FetchCfg) (m : Mapping) (cycleStr : List Char)
         (st : FetchState) (pg : Page) (tp cp : PropertyVal) (so : SelOpt)
         (chainID : List Char) (yp : PropertyVal) (tn : SelOpt)
         (rewardType : List Char) (fp : PropertyVal) (fs : List NotionFile),
        List.lookup cfg.propTitle pg.properties = some tp →
        tp.ptype = "title".toList →
        containsSub (titleText tp) cycleStr = true →
        List.lookup cfg.propChain pg.properties = some cp →
        cp.select = some so → so.name ≠ [] →
        List.lookup so.name m.chains = some chainID →
        List.lookup cfg.propType pg.properties = some yp →
        yp.ptype = "multi_select".toList → yp.multiSelect = [tn] →
        List.lookup tn.name m.types = some rewardType →
        List.lookup cfg.propFile pg.properties = some fp →
        fp.ptype = "files".toList → fp.files = fs → fs.length ≠ 1 →
        processPage cfg m cycleStr st pg
          = .error (pgErr pg ("expected exactly 1 merkle file, got ".toList
              ++ natToChars fs.length)))
    ∧ (∀ (cfg : FetchCfg) (m : Mapping) (cycleStr : List Char)
         (st : FetchState) (pg : Page) (tp cp : PropertyVal) (so : SelOpt)
         (chainID : List Char) (yp : PropertyVal) (tn : SelOpt)
         (rewardType : List Char) (fp : PropertyVal) (f : NotionFile)
         (e : List Char),
        List.lookup cfg.propTitle pg.properties = some tp →
        tp.ptype = "title".toList →
        containsSub (titleText tp) cycleStr = true →
        List.lookup cfg.propChain pg.properties = some cp →
        cp.select = some so → so.name ≠ [] →
        List.lookup so.name m.chains = some chainID →
        List.lookup cfg.propType pg.properties = some yp →
        yp.ptype = "multi_select".toList → yp.multiSelect = [tn] →
        List.lookup tn.name m.types = some rewardType →
        List.lookup cfg.propFile pg.properties = some fp →
        fp.ptype = "files".toList → fp.files = [f] →
        fileURL f = .error e →
        processPage cfg m cycleStr st pg = .error (pgErr pg e)) := by
  refine ⟨?_, ?_, ?_, ?_, ?_, ?_, ?_⟩
  · intro f hf hi
    show (if _ then _ else _) = _
    rw [if_pos ⟨hf, hi⟩]
  · intro f hf hx
    show (if _ then _ else _) = _
    rw [if_neg (fun hh : f.ftype = "file".toList ∧ furl f.file ≠ [] => by
        rw [hf] at hh
        exact absurd hh.1 (by decide)),
      if_pos ⟨hf, hx⟩]
  · intro f hc1 hc2 hi
    show (if _ then _ else _) = _
    rw [if_neg hc1, if_neg hc2, if_pos hi]
  · intro f hc1 hc2 hi hx
    show (if _ then _ else _) = _
    rw [if_neg hc1, if_neg hc2,
      if_neg (fun hh : furl f.file ≠ [] => hh hi), if_pos hx]
  · intro f hi hx
    show (if _ then _ else _) = _
    rw [if_neg (fun hh : _ ∧ furl f.file ≠ [] => hh.2 hi),
      if_neg (fun hh : _ ∧ xurl f.ext ≠ [] => hh.2 hx),
      if_neg (fun hh : furl f.file ≠ [] => hh hi),
      if_neg (fun hh : xurl f.ext ≠ [] => hh hx)]
  · intro cfg m cycleStr st pg tp cp so chainID yp tn rewardType fp fs
      hl ht hc hcp hsel hso hmc hyp hyt hms hmt hfp hft hfs hlen
    match fs, hlen with
    | [], _ =>
      simp [processPage, hl, ht, hc, hcp, hsel, hso, hmc, hyp, hyt, hms, hmt,
        hfp, hft, hfs]
    | [f1], hlen => exact absurd rfl hlen
    | f1 :: f2 :: rest, _ =>
      simp [processPage, hl, ht, hc, hcp, hsel, hso, hmc, hyp, hyt, hms, hmt,
        hfp, hft, hfs]
  · intro cfg m cycleStr st pg tp cp so chainID yp tn rewardType fp f e
      hl ht hc hcp hsel hso hmc hyp hyt hms hmt hfp hft hf1 hfu
    simp [processPage, hl, ht, hc, hcp, hsel, hso, hmc, hyp, hyt, hms, hmt,
      hfp, hft, hf1, hfu]

/-- Witness for the amended C9 at concrete file entries and a concrete
two-file row. -/
theorem c9_witness :
    fileURL ⟨"m".toList, "file".toList, some ⟨"I".toList, []⟩, none⟩
      = .ok "I".toList
    ∧ fileURL ⟨"m".toList, [], none, some ⟨"E".toList⟩⟩ = .ok "E".toList
    ∧ fileURL ⟨"m".toList, [], none, none⟩
      = .error ("file entry ".toList ++ quoted "m".toList
          ++ " has no downloadable URL".toList)
    ∧ processPage sampleCfg sampleMapping (cycleStrOf sampleCfg) ⟨[], [], []⟩
        ⟨"p2".toList,
         [("Task name".toList, titleProp), ("Chain".toList, chainProp),
          ("Type".toList, typeProp),
          ("Merkle file".toList,
           ⟨"files".toList, TitleRaw.empty, none, [], none, []⟩)]⟩
      = .error (pgErr ⟨"p2".toList,
          [("Task name".toList, titleProp), ("Chain".toList, chainProp),
           ("Type".toList, typeProp),
           ("Merkle file".toList,
            ⟨"files".toList, TitleRaw.empty, none, [], none, []⟩)]⟩
          ("expected exactly 1 merkle file, got ".toList ++ natToChars 0)) := by
  refine ⟨c9_thm.1 _ (by decide) (by decide),
    c9_thm.2.2.2.1 _ (by decide) (by decide) (by decide) (by decide), ?_, ?_⟩
  · exact c9_thm.2.2.2.2.1 _ (by decide) (by decide)
  · have h := c9_thm.2.2.2.2.2.1 sampleCfg sampleMapping
      (cycleStrOf sampleCfg) ⟨[], [], []⟩
      ⟨"p2".toList,
       [("Task name".toList, titleProp), ("Chain".toList, chainProp),
        ("Type".toList, typeProp),
        ("Merkle file".toList,
         ⟨"files".toList, TitleRaw.empty, none, [], none, []⟩)]⟩
      titleProp chainProp ⟨"Ethereum".toList⟩ "1".toList typeProp
      ⟨"Trading".toList⟩ "TRADING".toList
      ⟨"files".toList, TitleRaw.empty, none, [], none, []⟩ []
      (by decide) (by decide) (by decide) (by decide) (by decide) (by decide)
      (by decide) (by decide) (by decide) (by decide) (by decide) (by decide)
      (by decide) (by decide) (by decide)
    exact h

/-! ### Claim C10 -/

/-- C10 (confirmed).  A row whose title property is present and of the title
kind but whose title text does not contain the cycle label is skipped
silently (the state is returned unchanged, no error); a row whose title
property is missing, or present with a different kind, is a fatal error. -/
theorem c10_thm :
    (∀ (cfg : FetchCfg) (m : Mapping) (cycleStr : List Char) (st : FetchState)
       (pg : Page) (tp : PropertyVal),
      List.lookup cfg.propTitle pg.properties = some tp →
      tp.ptype = "title".toList →
      containsSub (titleText tp) cycleStr = false →
      processPage cfg m cycleStr st pg = .ok st)
    ∧ (∀ (cfg : FetchCfg) (m : Mapping) (cycleStr : List Char) (st : FetchState)
         (pg : Page),
        List.lookup cfg.propTitle pg.properties = none →
        processPage cfg m cycleStr st pg
          = .error (pgErr pg ("missing/invalid title property ".toList
              ++ quoted cfg.propTitle)))
    ∧ (∀ (cfg : FetchCfg) (m : Mapping) (cycleStr : List Char) (st : FetchState)
         (pg : Page) (tp : PropertyVal),
        List.lookup cfg.propTitle pg.properties = some tp →
        tp.ptype ≠ "title".toList →
        processPage cfg m cycleStr st pg
          = .error (pgErr pg ("missing/invalid title property ".toList
              ++ quoted cfg.propTitle))) := by
  refine ⟨?_, ?_, ?_⟩
  · intro cfg m cycleStr st pg tp hl ht hc
    simp [processPage, hl, ht, hc]
  · intro cfg m cycleStr st pg hl
    simp [processPage, hl]
  · intro cfg m cycleStr st pg tp hl ht
    simp only [processPage, hl]
    rw [if_pos ht]

/-- Witness for C10: a "Cycle 4" run skips the sample page (whose title says
Cycle 3) without error, a page without the title property is fatal, and a
page whose title property has kind "select" is fatal. -/
theorem c10_witness :
    processPage sampleCfg sampleMapping "Cycle 4".toList ⟨[], [], []⟩
        samplePage
      = .ok ⟨[], [], []⟩
    ∧ processPage sampleCfg sampleMapping "Cycle 3".toList ⟨[], [], []⟩
        ⟨"p3".toList, []⟩
      = .error (pgErr ⟨"p3".toList, []⟩
          ("missing/invalid title property ".toList
            ++ quoted sampleCfg.propTitle))
    ∧ processPage sampleCfg sampleMapping "Cycle 3".toList ⟨[], [], []⟩
        ⟨"p4".toList, [("Task name".toList, chainProp)]⟩
      = .error (pgErr ⟨"p4".toList, [("Task name".toList, chainProp)]⟩
          ("missing/invalid title property ".toList
            ++ quoted sampleCfg.propTitle)) :=
  ⟨c10_thm.1 sampleCfg sampleMapping "Cycle 4".toList ⟨[], [], []⟩
      samplePage titleProp (by decide) (by decide) (by decide),
   c10_thm.2.1 sampleCfg sampleMapping "Cycle 3".toList ⟨[], [], []⟩
      ⟨"p3".toList, []⟩ (by decide),
   c10_thm.2.2 sampleCfg sampleMapping "Cycle 3".toList ⟨[], [], []⟩
      ⟨"p4".toList, [("Task name".toList, chainProp)]⟩ chainProp
      (by decide) (by decide)⟩

/-! ### Claim C6 -/

/-- C6 counterexample.  The claim fails as literally stated: fatal-error
messages interpolate flag values, so a `--cycle-dir` value containing a
newline makes the "no matching merkle files found in %s" message - and
hence the stderr output - span two lines, not one. -/
theorem c6_counterexample :
    rewriterMain ⟨"v".toList, "d\nx".toList, "#".toList⟩ (.ok []) (.ok [])
      = .exit1 ("no matching merkle files found in ".toList ++ "d\nx".toList)
    ∧ exitCode (rewriterMain ⟨"v".toList, "d\nx".toList, "#".toList⟩
        (.ok []) (.ok [])) = 1
    ∧ (stderrOut (rewriterMain ⟨"v".toList, "d\nx".toList, "#".toList⟩
        (.ok []) (.ok []))).count '\n' = 2 := by
  decide

/-- C6 (amended).  The rewriter exits 0 and leaves the target file
unwritten when the transform made no substitution, printing the no-change
notice; every fatal exit of the rewriter has exit code 1, no file written,
and a stderr output "ERROR: " ++ message ++ newline, prefixed "ERROR:",
which is a single line exactly when the message itself has no newline; and
every fatal outcome of the fetcher has exit code 1 with the same
"ERROR:"-prefixed stderr shape and the same single-line characterization. -/
theorem c6_thm :
    (∀ (fl : RewriterFlags) (entries : List DirEntry) (st : ScanState)
       (orig : List Char),
      ¬(fl.valuesPath = [] ∨ fl.cycleDir = []) →
      scanDir fl.cycleDir ⟨0, []⟩ entries = .ok st →
      ¬(st.cycleNum = 0 ∨ st.pairs = []) →
      ¬st.cycleNum < 2 →
      (rewriteText fl.rawPfx st.cycleNum st.pairs orig).2 = false →
      rewriterMain fl (.ok entries) (.ok orig)
        = .exit0 none "No changes made to values.yaml (nothing matched).".toList
      ∧ exitCode (rewriterMain fl (.ok entries) (.ok orig)) = 0
      ∧ fileWritten (rewriterMain fl (.ok entries) (.ok orig)) = none)
    ∧ (∀ (fl : RewriterFlags) (dr : Except (List Char) (List DirEntry))
         (frd : Except (List Char) (List Char)) (msg : List Char),
        rewriterMain fl dr frd = .exit1 msg →
        exitCode (rewriterMain fl dr frd) = 1
        ∧ fileWritten (rewriterMain fl dr frd) = none
        ∧ stderrOut (rewriterMain fl dr frd)
            = "ERROR: ".toList ++ msg ++ ['\n']
        ∧ isPre "ERROR:".toList (stderrOut (rewriterMain fl dr frd)) = true
        ∧ ((stderrOut (rewriterMain fl dr frd)).count '\n' = 1 ↔
            '\n' ∉ msg))
    ∧ (∀ (cfg : FetchCfg) (mr : Except (List Char) Mapping)
         (ds : List (List Char)) (dn : Bool) (pages : List Page)
         (dl : List Char → Except (List Char) (List Char)) (msg : List Char),
        (fetcherMain cfg mr ds dn pages dl).1 = .error msg →
        fetchExitCode (fetcherMain cfg mr ds dn pages dl).1 = 1
        ∧ fetchStderr (fetcherMain cfg mr ds dn pages dl).1
            = "ERROR: ".toList ++ msg ++ ['\n']
        ∧ isPre "ERROR:".toList
            (fetchStderr (fetcherMain cfg mr ds dn pages dl).1) = true
        ∧ ((fetchStderr (fetcherMain cfg mr ds dn pages dl).1).count '\n' = 1
            ↔ '\n' ∉ msg)) := by
  have herr : ∀ msg : List Char,
      isPre "ERROR:".toList ("ERROR: ".toList ++ msg ++ ['\n']) = true := by
    intro msg
    have he : "ERROR: ".toList ++ msg ++ ['\n']
        = "ERROR:".toList ++ ((' ' :: msg) ++ ['\n']) := by simp
    rw [he]
    exact isPre_self_append _ _
  have hcnt : ∀ msg : List Char,
      (("ERROR: ".toList ++ msg ++ ['\n']).count '\n' = 1) ↔ '\n' ∉ msg := by
    intro msg
    have hstep : ("ERROR: ".toList ++ msg ++ ['\n']).count '\n'
        = msg.count '\n' + 1 := by
      rw [List.count_append, List.count_append]
      have h0 : ("ERROR: ".toList).count '\n' = 0 := by decide
      have h1 : (['\n'] : List Char).count '\n' = 1 := by decide
      omega
    rw [hstep]
    constructor
    · intro h
      exact List.count_eq_zero.mp (by omega)
    · intro h
      have h2 : msg.count '\n' = 0 := List.count_eq_zero.mpr h
      omega
  refine ⟨?_, ?_, ?_⟩
  · intro fl entries st orig h1 h2 h3 h4 h5
    have hm : rewriterMain fl (.ok entries) (.ok orig)
        = .exit0 none "No changes made to values.yaml (nothing matched).".toList := by
      simp [rewriterMain, h1, h2, h3, h4, h5]
    exact ⟨hm, by rw [hm]; rfl, by rw [hm]; rfl⟩
  · intro fl dr frd msg h
    rw [h]
    exact ⟨rfl, rfl, rfl, herr msg, hcnt msg⟩
  · intro cfg mr ds dn pages dl msg h
    rw [h]
    exact ⟨rfl, rfl, herr msg, hcnt msg⟩

/-- Witness for C6: a run whose directory yields cycle 3 and pair (1, A) on a
text with no URLs exits 0 without writing; a run with missing flags exits 1
with the ERROR line; and a fetcher run on a database with no data sources
exits 1 with the ERROR line. -/
theorem c6_witness :
    rewriterMain ⟨"v".toList, "d".toList, "#".toList⟩
        (.ok [⟨"1_A_3.json".toList, false⟩]) (.ok "hello".toList)
      = .exit0 none "No changes made to values.yaml (nothing matched).".toList
    ∧ exitCode (rewriterMain ⟨[], [], "#".toList⟩ (.ok []) (.ok [])) = 1
    ∧ fetchExitCode (fetcherMain sampleCfg (.ok sampleMapping) [] false []
        (fun _ => .error [])).1 = 1 :=
  ⟨(c6_thm.1 ⟨"v".toList, "d".toList, "#".toList⟩
      [⟨"1_A_3.json".toList, false⟩] ⟨3, [⟨"1".toList, "A".toList⟩]⟩
      "hello".toList (by decide) (by decide) (by decide) (by decide)
      (by decide)).1,
   (c6_thm.2.1 ⟨[], [], "#".toList⟩ (.ok []) (.ok [])
      "missing --values or --cycle-dir".toList (by decide)).1,
   (c6_thm.2.2 sampleCfg (.ok sampleMapping) [] false []
      (fun _ => .error []) "database has no data_sources".toList
      (by decide)).1⟩

end FFR
